import Mathlib

/- Verification model of the rss-generator repository (src/rss_generator:
   parsers.py, common.py, sites.py).

   The BeautifulSoup DOM is modelled by the `Node` tree below.  The
   BeautifulSoup parse step itself (html.parser) is an external library, so
   each function that the source feeds a raw HTML string is modelled on the
   parsed forest (`List Node`); `clean_html_content` additionally takes the
   parse result as an `Option` so that the `except` branch of the source
   (internal parse error) is represented by `none`.

   `datetime.now().strftime("%Y-%m-%d")` is modelled by passing the clock
   reading explicitly as a `now : String` argument. -/

namespace RssGen

/-- A BeautifulSoup DOM node: an element with tag name, attributes (the
`class` attribute kept as its raw string value) and children, a text node,
or an HTML comment. -/
inductive Node where
  | elem (tag : String) (attrs : List (String × String)) (children : List Node)
  | textNode (s : String)
  | commentNode (s : String)

mutual

/-- Structural boolean equality on nodes (for decidable equality). -/
def Node.beq : Node → Node → Bool
  | .elem t a c, .elem t' a' c' => t == t' && a == a' && forestBeq c c'
  | .textNode s, .textNode s' => s == s'
  | .commentNode s, .commentNode s' => s == s'
  | _, _ => false

def forestBeq : List Node → List Node → Bool
  | [], [] => true
  | n :: ns, m :: ms => Node.beq n m && forestBeq ns ms
  | _, _ => false

end

mutual

theorem Node.beq_iff : ∀ a b : Node, Node.beq a b = true ↔ a = b
  | .elem t a c, .elem t' a' c' => by
    simp [Node.beq, forestBeq_iff c c', and_assoc]
  | .textNode s, .textNode s' => by simp [Node.beq]
  | .commentNode s, .commentNode s' => by simp [Node.beq]
  | .elem _ _ _, .textNode _ => by simp [Node.beq]
  | .elem _ _ _, .commentNode _ => by simp [Node.beq]
  | .textNode _, .elem _ _ _ => by simp [Node.beq]
  | .textNode _, .commentNode _ => by simp [Node.beq]
  | .commentNode _, .elem _ _ _ => by simp [Node.beq]
  | .commentNode _, .textNode _ => by simp [Node.beq]

theorem forestBeq_iff : ∀ as bs : List Node, forestBeq as bs = true ↔ as = bs
  | [], [] => by simp [forestBeq]
  | n :: ns, m :: ms => by
    simp [forestBeq, Node.beq_iff n m, forestBeq_iff ns ms]
  | [], _ :: _ => by simp [forestBeq]
  | _ :: _, [] => by simp [forestBeq]

end

instance : DecidableEq Node := fun a b => decidable_of_iff _ (Node.beq_iff a b)

mutual

/-- All descendants of a node in document (pre-)order, the node itself
excluded; matches iteration order of BeautifulSoup's `descendants` /
`find_all`. -/
def Node.descendants : Node → List Node
  | .elem _ _ c => forestNodes c
  | .textNode _ => []
  | .commentNode _ => []

/-- All nodes of a forest in document order, each root included before its
descendants. -/
def forestNodes : List Node → List Node
  | [] => []
  | n :: ns => n :: (Node.descendants n ++ forestNodes ns)

end

/-- Models `tag.get(key)`: the first attribute with the given name. -/
def getAttr (n : Node) (key : String) : Option String :=
  match n with
  | .elem _ attrs _ => (attrs.find? (fun p => p.1 == key)).map (fun p => p.2)
  | _ => none

/-- Python regex `\s` / `str.strip` whitespace (ASCII part). -/
def isPyWs (c : Char) : Bool :=
  c == ' ' || c == '\t' || c == '\n' || c == '\r' || c == '\x0b' || c == '\x0c'

/-- Boolean list-prefix test (pattern first). -/
def prefixOf : List Char → List Char → Bool
  | [], _ => true
  | _ :: _, [] => false
  | a :: as, b :: bs => a == b && prefixOf as bs

/-- Python `pat in s` substring test (pattern first). -/
def containsSub (pat : List Char) : List Char → Bool
  | [] => prefixOf pat []
  | c :: rest => prefixOf pat (c :: rest) || containsSub pat rest

/-- `pat in s` on strings. -/
def strContainsSub (s pat : String) : Bool := containsSub pat.data s.data

/-- Python `str.lower` (ASCII-adequate model). -/
def lowerStr (s : String) : String := ⟨s.data.map Char.toLower⟩

/-- Python `str.strip()` on a character list. -/
def trimChars (cs : List Char) : List Char :=
  ((cs.dropWhile isPyWs).reverse.dropWhile isPyWs).reverse

/-- Python `str.strip()`. -/
def trimStr (s : String) : String := ⟨trimChars s.data⟩

/-- Helper for `splitWsChars`: `cur` is the reversed current word. -/
def splitWsAux (cur : List Char) : List Char → List String
  | [] => if cur.isEmpty then [] else [⟨cur.reverse⟩]
  | c :: rest =>
    if isPyWs c then
      if cur.isEmpty then splitWsAux [] rest
      else ⟨cur.reverse⟩ :: splitWsAux [] rest
    else splitWsAux (c :: cur) rest

/-- Split on whitespace runs (Python `str.split()`), used for the
multi-valued `class` attribute. -/
def splitWsChars (cs : List Char) : List String := splitWsAux [] cs

/-- Class tokens of an element (`class` attribute split on whitespace). -/
def classTokens (n : Node) : List String :=
  match getAttr n "class" with
  | some c => splitWsChars c.data
  | none => []

mutual

/-- The `NavigableString` contents of a node in document order
(BeautifulSoup `.strings`; comments excluded). -/
def nodeStrings : Node → List String
  | .elem _ _ c => forestStrings c
  | .textNode s => [s]
  | .commentNode _ => []

def forestStrings : List Node → List String
  | [] => []
  | n :: ns => nodeStrings n ++ forestStrings ns

end

/-- BeautifulSoup `get_text()`. -/
def getText (n : Node) : String := String.join (nodeStrings n)

/-- BeautifulSoup `get_text(strip=True)`: joins the stripped strings,
skipping the ones that strip to empty. -/
def getTextStrip (n : Node) : String :=
  String.join (((nodeStrings n).map trimStr).filter (fun s => s ≠ ""))

/- ------------------------------------------------------------------ -/
/- clean_html_content (parsers.py lines 14-79)                         -/
/- ------------------------------------------------------------------ -/

/-- Tag denylist of `clean_html_content` (parsers.py `unwanted_tags`). -/
def unwantedTags : List String :=
  ["nav", "header", "footer", "aside", "script", "style", "svg", "button", "form"]

/-- Attribute allowlist of `clean_html_content` (`allowed_attrs`). -/
def allowedAttrs : List String := ["href", "src", "alt", "title", "class"]

mutual

/-- Generic pruning traversal: `keep` is evaluated on each node with its
original subtree (matching the source's pattern of `find_all` over the
document followed by `decompose()`); a rejected node is dropped with its
whole subtree, a kept element keeps its tag and attributes and recurses
into its children. -/
def pruneN (keep : Node → Bool) : Node → Option Node
  | .elem t a c =>
    if keep (.elem t a c) then some (.elem t a (pruneF keep c)) else none
  | .textNode s => if keep (.textNode s) then some (.textNode s) else none
  | .commentNode s => if keep (.commentNode s) then some (.commentNode s) else none

def pruneF (keep : Node → Bool) : List Node → List Node
  | [] => []
  | n :: ns =>
    match pruneN keep n with
    | some m => m :: pruneF keep ns
    | none => pruneF keep ns

end

/-- An element whose tag is on the denylist. -/
def isUnwanted (n : Node) : Bool :=
  match n with
  | .elem t _ _ => decide (t ∈ unwantedTags)
  | _ => false

def isCommentNode (n : Node) : Bool :=
  match n with
  | .commentNode _ => true
  | _ => false

/-- Element carrying the `muted` class (`find_all(class_="muted")`). -/
def hasMutedClass (n : Node) : Bool := (classTokens n).contains "muted"

def isTagOf (t : String) (n : Node) : Bool :=
  match n with
  | .elem t' _ _ => t' == t
  | _ => false

/-- `ul`/`ol` element. -/
def isListElem (n : Node) : Bool := isTagOf "ul" n || isTagOf "ol" n

/-- The navigation-list heuristic: stripped text under 100 characters and at
least one `a` descendant (parsers.py lines 52-57). -/
def shortLinky (n : Node) : Bool :=
  (getTextStrip n).length < 100 && 0 < (n.descendants.filter (isTagOf "a")).length

mutual

/-- Attribute stripping pass: keep only allow-listed attributes on every
element (parsers.py lines 59-66). -/
def stripAttrsN : Node → Node
  | .elem t a c => .elem t (a.filter (fun p => decide (p.1 ∈ allowedAttrs))) (stripAttrsF c)
  | .textNode s => .textNode s
  | .commentNode s => .commentNode s

def stripAttrsF : List Node → List Node
  | [] => []
  | n :: ns => stripAttrsN n :: stripAttrsF ns

end

/-- The DOM transformation of `clean_html_content`, in source order:
remove denylisted tags, comments, `muted`-class elements, short linky
lists; then strip non-allow-listed attributes. -/
def cleanForest (ns : List Node) : List Node :=
  stripAttrsF
    (pruneF (fun n => !(isListElem n && shortLinky n))
      (pruneF (fun n => !hasMutedClass n)
        (pruneF (fun n => !isCommentNode n)
          (pruneF (fun n => !isUnwanted n) ns))))

/-- Entity-escaping of text content on serialization (BeautifulSoup's
minimal formatter). -/
def escapeText (s : String) : String :=
  ⟨s.data.flatMap (fun c =>
    if c == '&' then "&amp;".data
    else if c == '<' then "&lt;".data
    else if c == '>' then "&gt;".data
    else [c])⟩

/-- Attribute-value escaping on serialization. -/
def escapeAttr (s : String) : String :=
  ⟨s.data.flatMap (fun c =>
    if c == '&' then "&amp;".data
    else if c == '<' then "&lt;".data
    else if c == '>' then "&gt;".data
    else if c == '"' then "&quot;".data
    else [c])⟩

def renderAttrs : List (String × String) → String
  | [] => ""
  | (k, v) :: rest => " " ++ k ++ "=\"" ++ escapeAttr v ++ "\"" ++ renderAttrs rest

mutual

/-- `str(soup)` serialization (simplified: every element rendered with an
explicit close tag). -/
def renderNode : Node → String
  | .elem t a c => "<" ++ t ++ renderAttrs a ++ ">" ++ renderForest c ++ "</" ++ t ++ ">"
  | .textNode s => escapeText s
  | .commentNode s => "<!--" ++ s ++ "-->"

def renderForest : List Node → String
  | [] => ""
  | n :: ns => renderNode n ++ renderForest ns

end

/-- Index of the last occurrence of `ch` in a character list, if any. -/
def lastIdxOf (ch : Char) : List Char → Option Nat
  | [] => none
  | c :: rest =>
    match lastIdxOf ch rest with
    | some i => some (i + 1)
    | none => if c == ch then some 0 else none

/-- Index of the last `'\n'` in a character list, if any. -/
def lastNewlineIdx (cs : List Char) : Option Nat := lastIdxOf '\n' cs

/-- `re.sub(r"\n\s*\n", "\n", s)`: collapse blank-line runs. -/
def collapseBlankLines : List Char → List Char
  | [] => []
  | c :: rest =>
    if c == '\n' then
      let w := rest.takeWhile isPyWs
      match lastNewlineIdx w with
      | some k => '\n' :: collapseBlankLines (rest.drop (k + 1))
      | none => '\n' :: collapseBlankLines rest
    else c :: collapseBlankLines rest
termination_by cs => cs.length
decreasing_by
  all_goals simp
  all_goals omega

/-- `re.sub(r"  +", " ", s)`: collapse runs of two or more spaces. -/
def collapseSpaces : List Char → List Char
  | [] => []
  | [c] => [c]
  | c :: d :: rest =>
    if c == ' ' && d == ' ' then
      ' ' :: collapseSpaces (rest.dropWhile (fun e => e == ' '))
    else c :: collapseSpaces (d :: rest)
termination_by cs => cs.length
decreasing_by
  · have h : (rest.dropWhile (fun e => e == ' ')).length ≤ rest.length :=
      (List.dropWhile_suffix _).sublist.length_le
    simp
    omega
  · simp

/-- `clean_html_content(html)` (parsers.py lines 14-79).  `parsed` is the
BeautifulSoup parse of `html`; `none` models an internal parse error, on
which the source's `except` branch returns the original input unmodified. -/
def clean_html_content (html : String) (parsed : Option (List Node)) : String :=
  match parsed with
  | none => html
  | some ns =>
    ⟨collapseSpaces (collapseBlankLines (renderForest (cleanForest ns)).data)⟩

/- ------------------------------------------------------------------ -/
/- Sanitizer lemmas                                                    -/
/- ------------------------------------------------------------------ -/

/-- A keep-predicate that does not look at an element's children. -/
def ChildInvariantB (keep : Node → Bool) : Prop :=
  ∀ t a c c', keep (.elem t a c) = keep (.elem t a c')

/-- A node property that does not look at an element's children. -/
def ChildInvariant (P : Node → Prop) : Prop :=
  ∀ t a c c', P (.elem t a c) → P (.elem t a c')

/-- A node property that looks neither at attributes nor at children. -/
def HeadInvariant (P : Node → Prop) : Prop :=
  ∀ t a a' c c', P (.elem t a c) → P (.elem t a' c')

theorem mem_forestNodes_cons {x n : Node} {ns : List Node} :
    x ∈ forestNodes (n :: ns) ↔ x = n ∨ x ∈ n.descendants ∨ x ∈ forestNodes ns := by
  simp [forestNodes, List.mem_append]

theorem mem_forestNodes_singleton {x m : Node} :
    x ∈ forestNodes [m] ↔ x = m ∨ x ∈ m.descendants := by
  simp [mem_forestNodes_cons, forestNodes]

mutual

theorem pruneN_keeps (keep : Node → Bool) (hk : ChildInvariantB keep) :
    ∀ n m : Node, pruneN keep n = some m → ∀ x ∈ forestNodes [m], keep x = true
  | .elem t a c, m => by
    intro h x hx
    rw [pruneN] at h
    split at h
    · cases h
      rcases mem_forestNodes_singleton.mp hx with h1 | h1
      · subst h1
        rw [hk t a (pruneF keep c) c]
        assumption
      · exact pruneF_keeps keep hk c x h1
    · cases h
  | .textNode s, m => by
    intro h x hx
    rw [pruneN] at h
    split at h
    · cases h
      rcases mem_forestNodes_singleton.mp hx with h1 | h1
      · subst h1; assumption
      · simp [Node.descendants] at h1
    · cases h
  | .commentNode s, m => by
    intro h x hx
    rw [pruneN] at h
    split at h
    · cases h
      rcases mem_forestNodes_singleton.mp hx with h1 | h1
      · subst h1; assumption
      · simp [Node.descendants] at h1
    · cases h

theorem pruneF_keeps (keep : Node → Bool) (hk : ChildInvariantB keep) :
    ∀ ns : List Node, ∀ x ∈ forestNodes (pruneF keep ns), keep x = true
  | [] => by intro x hx; simp [pruneF, forestNodes] at hx
  | n :: ns => by
    intro x hx
    rw [pruneF] at hx
    rcases hp : pruneN keep n with _ | m
    · rw [hp] at hx
      exact pruneF_keeps keep hk ns x hx
    · rw [hp] at hx
      rcases mem_forestNodes_cons.mp hx with h1 | h1 | h1
      · exact pruneN_keeps keep hk n m hp x (mem_forestNodes_singleton.mpr (Or.inl h1))
      · exact pruneN_keeps keep hk n m hp x (mem_forestNodes_singleton.mpr (Or.inr h1))
      · exact pruneF_keeps keep hk ns x h1

end

mutual

theorem pruneN_pres (P : Node → Prop) (hP : ChildInvariant P) (keep : Node → Bool) :
    ∀ n m : Node, pruneN keep n = some m →
      (∀ x ∈ forestNodes [n], P x) → ∀ x ∈ forestNodes [m], P x
  | .elem t a c, m => by
    intro h hin x hx
    rw [pruneN] at h
    split at h
    · cases h
      rcases mem_forestNodes_singleton.mp hx with h1 | h1
      · subst h1
        exact hP t a c _ (hin _ (mem_forestNodes_singleton.mpr (Or.inl rfl)))
      · have hin' : ∀ x ∈ forestNodes c, P x := by
          intro y hy
          exact hin y (mem_forestNodes_singleton.mpr (Or.inr hy))
        exact pruneF_pres P hP keep c hin' x h1
    · cases h
  | .textNode s, m => by
    intro h hin x hx
    rw [pruneN] at h
    split at h
    · cases h
      rcases mem_forestNodes_singleton.mp hx with h1 | h1
      · subst h1
        exact hin _ (mem_forestNodes_singleton.mpr (Or.inl rfl))
      · simp [Node.descendants] at h1
    · cases h
  | .commentNode s, m => by
    intro h hin x hx
    rw [pruneN] at h
    split at h
    · cases h
      rcases mem_forestNodes_singleton.mp hx with h1 | h1
      · subst h1
        exact hin _ (mem_forestNodes_singleton.mpr (Or.inl rfl))
      · simp [Node.descendants] at h1
    · cases h

theorem pruneF_pres (P : Node → Prop) (hP : ChildInvariant P) (keep : Node → Bool) :
    ∀ ns : List Node, (∀ x ∈ forestNodes ns, P x) →
      ∀ x ∈ forestNodes (pruneF keep ns), P x
  | [] => by intro _ x hx; simp [pruneF, forestNodes] at hx
  | n :: ns => by
    intro hin x hx
    rw [pruneF] at hx
    have hinN : ∀ x ∈ forestNodes [n], P x := by
      intro y hy
      rcases mem_forestNodes_singleton.mp hy with h1 | h1
      · exact hin y (mem_forestNodes_cons.mpr (Or.inl h1))
      · exact hin y (mem_forestNodes_cons.mpr (Or.inr (Or.inl h1)))
    have hinNs : ∀ x ∈ forestNodes ns, P x := by
      intro y hy
      exact hin y (mem_forestNodes_cons.mpr (Or.inr (Or.inr hy)))
    rcases hp : pruneN keep n with _ | m
    · rw [hp] at hx
      exact pruneF_pres P hP keep ns hinNs x hx
    · rw [hp] at hx
      rcases mem_forestNodes_cons.mp hx with h1 | h1 | h1
      · exact pruneN_pres P hP keep n m hp hinN x (mem_forestNodes_singleton.mpr (Or.inl h1))
      · exact pruneN_pres P hP keep n m hp hinN x (mem_forestNodes_singleton.mpr (Or.inr h1))
      · exact pruneF_pres P hP keep ns hinNs x h1

end

/-- Attribute allow-list property of a node. -/
def AttrsOk (x : Node) : Prop :=
  ∀ t a c, x = .elem t a c → ∀ p ∈ a, p.1 ∈ allowedAttrs

mutual

theorem stripAttrsN_ok : ∀ n : Node, ∀ x ∈ forestNodes [stripAttrsN n], AttrsOk x
  | .elem t a c => by
    intro x hx
    rw [stripAttrsN] at hx
    rcases mem_forestNodes_singleton.mp hx with h1 | h1
    · subst h1
      intro t' a' c' he p hp
      cases he
      rcases List.mem_filter.mp hp with ⟨_, h2⟩
      exact of_decide_eq_true h2
    · simp only [Node.descendants] at h1
      exact stripAttrsF_ok c x h1
  | .textNode s => by
    intro x hx
    rw [stripAttrsN] at hx
    rcases mem_forestNodes_singleton.mp hx with h1 | h1
    · subst h1; intro t' a' c' he; cases he
    · simp [Node.descendants] at h1
  | .commentNode s => by
    intro x hx
    rw [stripAttrsN] at hx
    rcases mem_forestNodes_singleton.mp hx with h1 | h1
    · subst h1; intro t' a' c' he; cases he
    · simp [Node.descendants] at h1

theorem stripAttrsF_ok : ∀ ns : List Node, ∀ x ∈ forestNodes (stripAttrsF ns), AttrsOk x
  | [] => by intro x hx; simp [stripAttrsF, forestNodes] at hx
  | n :: ns => by
    intro x hx
    rw [stripAttrsF] at hx
    rcases mem_forestNodes_cons.mp hx with h1 | h1 | h1
    · exact stripAttrsN_ok n x (mem_forestNodes_singleton.mpr (Or.inl h1))
    · exact stripAttrsN_ok n x (mem_forestNodes_singleton.mpr (Or.inr h1))
    · exact stripAttrsF_ok ns x h1

end

mutual

theorem stripAttrsN_pres (P : Node → Prop) (hP : HeadInvariant P) :
    ∀ n : Node, (∀ x ∈ forestNodes [n], P x) → ∀ x ∈ forestNodes [stripAttrsN n], P x
  | .elem t a c => by
    intro hin x hx
    rw [stripAttrsN] at hx
    rcases mem_forestNodes_singleton.mp hx with h1 | h1
    · subst h1
      exact hP t a _ c _ (hin _ (mem_forestNodes_singleton.mpr (Or.inl rfl)))
    · simp only [Node.descendants] at h1
      have hin' : ∀ x ∈ forestNodes c, P x := by
        intro y hy
        exact hin y (mem_forestNodes_singleton.mpr (Or.inr hy))
      exact stripAttrsF_pres P hP c hin' x h1
  | .textNode s => by
    intro hin x hx
    rw [stripAttrsN] at hx
    rcases mem_forestNodes_singleton.mp hx with h1 | h1
    · subst h1
      exact hin _ (mem_forestNodes_singleton.mpr (Or.inl rfl))
    · simp [Node.descendants] at h1
  | .commentNode s => by
    intro hin x hx
    rw [stripAttrsN] at hx
    rcases mem_forestNodes_singleton.mp hx with h1 | h1
    · subst h1
      exact hin _ (mem_forestNodes_singleton.mpr (Or.inl rfl))
    · simp [Node.descendants] at h1

theorem stripAttrsF_pres (P : Node → Prop) (hP : HeadInvariant P) :
    ∀ ns : List Node, (∀ x ∈ forestNodes ns, P x) →
      ∀ x ∈ forestNodes (stripAttrsF ns), P x
  | [] => by intro _ x hx; simp [stripAttrsF, forestNodes] at hx
  | n :: ns => by
    intro hin x hx
    rw [stripAttrsF] at hx
    have hinN : ∀ x ∈ forestNodes [n], P x := by
      intro y hy
      rcases mem_forestNodes_singleton.mp hy with h1 | h1
      · exact hin y (mem_forestNodes_cons.mpr (Or.inl h1))
      · exact hin y (mem_forestNodes_cons.mpr (Or.inr (Or.inl h1)))
    have hinNs : ∀ x ∈ forestNodes ns, P x := by
      intro y hy
      exact hin y (mem_forestNodes_cons.mpr (Or.inr (Or.inr hy)))
    rcases mem_forestNodes_cons.mp hx with h1 | h1 | h1
    · exact stripAttrsN_pres P hP n hinN x (mem_forestNodes_singleton.mpr (Or.inl h1))
    · exact stripAttrsN_pres P hP n hinN x (mem_forestNodes_singleton.mpr (Or.inr h1))
    · exact stripAttrsF_pres P hP ns hinNs x h1

end

/-- No `script`/`style` element. -/
def NotScriptStyle (x : Node) : Prop :=
  ∀ t a c, x = .elem t a c → t ≠ "script" ∧ t ≠ "style"

/-- Not a comment node. -/
def NotComment (x : Node) : Prop := ∀ s, x ≠ .commentNode s

theorem notScriptStyle_childInv : ChildInvariant NotScriptStyle := by
  intro t a c c' h t' a' c'' he
  cases he
  exact h t a c rfl

theorem notScriptStyle_headInv : HeadInvariant NotScriptStyle := by
  intro t a a' c c' h t' a'' c'' he
  cases he
  exact h t a c rfl

theorem notComment_childInv : ChildInvariant NotComment := by
  intro t a c c' _ s he
  cases he

theorem notComment_headInv : HeadInvariant NotComment := by
  intro t a a' c c' _ s he
  cases he

theorem cleanForest_good (ns : List Node) :
    ∀ x ∈ forestNodes (cleanForest ns), NotScriptStyle x ∧ NotComment x ∧ AttrsOk x := by
  intro x hx
  unfold cleanForest at hx
  have hkU : ChildInvariantB (fun n => !isUnwanted n) := by
    intro t a c c'; rfl
  have hkC : ChildInvariantB (fun n => !isCommentNode n) := by
    intro t a c c'; rfl
  have h1 : ∀ y ∈ forestNodes (pruneF (fun n => !isUnwanted n) ns), NotScriptStyle y := by
    intro y hy
    have := pruneF_keeps _ hkU ns y hy
    intro t a c he
    subst he
    simp only [isUnwanted, Bool.not_eq_true'] at this
    have hmem := of_decide_eq_false this
    constructor
    · intro he'; subst he'; exact hmem (by simp [unwantedTags])
    · intro he'; subst he'; exact hmem (by simp [unwantedTags])
  have h2s : ∀ y ∈ forestNodes (pruneF (fun n => !isCommentNode n)
      (pruneF (fun n => !isUnwanted n) ns)), NotScriptStyle y :=
    pruneF_pres _ notScriptStyle_childInv _ _ h1
  have h2c : ∀ y ∈ forestNodes (pruneF (fun n => !isCommentNode n)
      (pruneF (fun n => !isUnwanted n) ns)), NotComment y := by
    intro y hy
    have := pruneF_keeps _ hkC _ y hy
    intro s he
    subst he
    simp [isCommentNode] at this
  have h3s := pruneF_pres _ notScriptStyle_childInv (fun n => !hasMutedClass n) _ h2s
  have h3c := pruneF_pres _ notComment_childInv (fun n => !hasMutedClass n) _ h2c
  have h4s := pruneF_pres _ notScriptStyle_childInv
    (fun n => !(isListElem n && shortLinky n)) _ h3s
  have h4c := pruneF_pres _ notComment_childInv
    (fun n => !(isListElem n && shortLinky n)) _ h3c
  refine ⟨stripAttrsF_pres _ notScriptStyle_headInv _ h4s x hx,
    stripAttrsF_pres _ notComment_headInv _ h4c x hx,
    stripAttrsF_ok _ x hx⟩

/- ------------------------------------------------------------------ -/
/- Regex-style scanners used by the parsers                            -/
/- ------------------------------------------------------------------ -/

/-- `re.search`-style leftmost scan: apply the position matcher `f` at every
suffix, left to right, returning its first hit. -/
def scanFor {α : Type} (f : List Char → Option α) : List Char → Option α
  | [] => f []
  | c :: rest =>
    match f (c :: rest) with
    | some r => some r
    | none => scanFor f rest

def monthNamesFull : List String :=
  ["January", "February", "March", "April", "May", "June", "July",
   "August", "September", "October", "November", "December"]

def monthAbbrevs : List String :=
  ["Jan", "Feb", "Mar", "Apr", "May", "Jun", "Jul", "Aug", "Sep", "Oct", "Nov", "Dec"]

/-- Matches `,\s+\d{4}` at the head, returning the consumed span. -/
def matchCommaYear (r3 : List Char) : Option (List Char) :=
  match r3 with
  | ',' :: r4 =>
    let w2 := r4.takeWhile isPyWs
    if w2.isEmpty then none
    else
      let r5 := r4.drop w2.length
      let y := r5.take 4
      if y.length = 4 ∧ y.all Char.isDigit then some (',' :: (w2 ++ y)) else none
  | _ => none

/-- Matches `\s+\d{1,2},\s+\d{4}` at the head (greedy with the same
backtracking as the Python regex), returning the consumed span. -/
def matchMonthDateFrom (r1 : List Char) : Option (List Char) :=
  let w := r1.takeWhile isPyWs
  if w.isEmpty then none
  else
    match r1.drop w.length with
    | d1 :: rest1 =>
      if d1.isDigit then
        match rest1 with
        | d2 :: rest2 =>
          if d2.isDigit then
            match matchCommaYear rest2 with
            | some sp => some (w ++ d1 :: d2 :: sp)
            | none =>
              match matchCommaYear rest1 with
              | some sp => some (w ++ d1 :: sp)
              | none => none
          else
            match matchCommaYear rest1 with
            | some sp => some (w ++ d1 :: sp)
            | none => none
        | [] => none
      else none
    | [] => none

/-- First month name (from `names`) that is a prefix of `cs`. -/
def matchAnyName (names : List String) (cs : List Char) : Option (List Char) :=
  names.findSome? (fun nm => if prefixOf nm.data cs then some nm.data else none)

/-- Matches `(names)\s+\d{1,2},\s+\d{4}` at the head, returning the full
matched span (`match.group(0)`). -/
def monthDateAt (names : List String) (cs : List Char) : Option (List Char) :=
  match matchAnyName names cs with
  | some nm =>
    match matchMonthDateFrom (cs.drop nm.length) with
    | some sp => some (nm ++ sp)
    | none => none
  | none => none

/-- `re.search(r"(names)\s+\d{1,2},\s+\d{4}", s)`, returning the matched
text. -/
def searchMonthPattern (names : List String) (cs : List Char) : Option String :=
  (scanFor (monthDateAt names) cs).map (fun sp => ⟨sp⟩)

/-- One `re.sub(r"(names)\s+\d{1,2},\s+\d{4}.*$", "", s)` pass: truncate at
the leftmost occurrence of the date phrase (the trailing `.*$` consumes the
rest; newline subtleties of `$` are not modelled — titles are single-line
strips). -/
def subMonthSuffix (names : List String) : List Char → List Char
  | [] => []
  | c :: rest =>
    if (monthDateAt names (c :: rest)).isSome then []
    else c :: subMonthSuffix names rest

/-- `re.sub(r"—\s*.*$", "", s)`: truncate at the first em dash. -/
def subEmDashSuffix (cs : List Char) : List Char := cs.takeWhile (fun c => c ≠ '—')

/-- Title cleanup of `parse_immich` (parsers.py lines 120-134): full-month
date sub, abbreviated-month date sub, em-dash author sub, then `strip()`. -/
def immichCleanTitle (s : String) : String :=
  trimStr ⟨subEmDashSuffix (subMonthSuffix monthAbbrevs (subMonthSuffix monthNamesFull s.data))⟩

/-- Matches `/(\d{4})-(\d{2})-(\d{2})` at the head, returning the
`YYYY-MM-DD` string the source assembles from the three groups. -/
def slashDateAt (cs : List Char) : Option String :=
  match cs with
  | '/' :: r =>
    let y := r.take 4
    if y.length = 4 ∧ y.all Char.isDigit then
      match r.drop 4 with
      | '-' :: r2 =>
        let m := r2.take 2
        if m.length = 2 ∧ m.all Char.isDigit then
          match r2.drop 2 with
          | '-' :: r4 =>
            let d := r4.take 2
            if d.length = 2 ∧ d.all Char.isDigit then
              some ⟨y ++ '-' :: (m ++ '-' :: d)⟩
            else none
          | _ => none
        else none
      | _ => none
    else none
  | _ => none

/-- `re.search(r"/(\d{4})-(\d{2})-(\d{2})", s)` of `parse_immich`. -/
def searchSlashDate (cs : List Char) : Option String := scanFor slashDateAt cs

/-- Matches `/(\d{4}-\d{2}-\d{2})-` (note the required trailing dash) at the
head; group 1. -/
def ddmDateAt (cs : List Char) : Option String :=
  match cs with
  | '/' :: r =>
    let y := r.take 4
    if y.length = 4 ∧ y.all Char.isDigit then
      match r.drop 4 with
      | '-' :: r2 =>
        let m := r2.take 2
        if m.length = 2 ∧ m.all Char.isDigit then
          match r2.drop 2 with
          | '-' :: r4 =>
            let d := r4.take 2
            if d.length = 2 ∧ d.all Char.isDigit then
              match r4.drop 2 with
              | '-' :: _ => some ⟨y ++ '-' :: (m ++ '-' :: d)⟩
              | _ => none
            else none
          | _ => none
        else none
      | _ => none
    else none
  | _ => none

/-- `re.search(r"/(\d{4}-\d{2}-\d{2})-", full_link)` of
`parse_diariodominho`. -/
def searchDdmDate (cs : List Char) : Option String := scanFor ddmDateAt cs

/-- Matches `/noticias/([^/]+)/` at the head; group 1. -/
def categoryAt (cs : List Char) : Option String :=
  if prefixOf "/noticias/".data cs then
    let r := cs.drop 10
    let seg := r.takeWhile (fun c => c ≠ '/')
    if seg.isEmpty then none
    else
      match r.drop seg.length with
      | '/' :: _ => some ⟨seg⟩
      | _ => none
  else none

/-- `re.search(r"/noticias/([^/]+)/", full_link)` of `parse_diariodominho`. -/
def searchCategory (cs : List Char) : Option String := scanFor categoryAt cs

/-- Python `str.title()` (ASCII-adequate model): upper-case each letter that
follows a non-letter, lower-case the other letters. -/
def pyTitleAux : Bool → List Char → List Char
  | _, [] => []
  | prevAlpha, c :: rest =>
    if c.isAlpha then
      (if prevAlpha then c.toLower else c.toUpper) :: pyTitleAux true rest
    else c :: pyTitleAux false rest

def pyTitle (s : String) : String := ⟨pyTitleAux false s.data⟩

/- ------------------------------------------------------------------ -/
/- urllib.parse.urljoin (model for http(s)-style URLs)                 -/
/- ------------------------------------------------------------------ -/

def isSchemeChar (c : Char) : Bool := c.isAlphanum || c == '+' || c == '-' || c == '.'

/-- Splits a leading `scheme:` off a URL, if present. -/
def schemeSplit (cs : List Char) : Option (List Char × List Char) :=
  match cs with
  | c :: _ =>
    if c.isAlpha then
      let s := cs.takeWhile isSchemeChar
      match cs.drop s.length with
      | ':' :: r => some (s, r)
      | _ => none
    else none
  | [] => none

/-- Splits a base URL into its `scheme://authority` part and the rest. -/
def splitBase (b : List Char) : List Char × List Char :=
  match schemeSplit b with
  | some (sch, r) =>
    if prefixOf "//".data r then
      let auth := (r.drop 2).takeWhile (fun c => c ≠ '/' ∧ c ≠ '?' ∧ c ≠ '#')
      (sch ++ ':' :: '/' :: '/' :: auth, (r.drop 2).drop auth.length)
    else (sch ++ [':'], r)
  | none =>
    if prefixOf "//".data b then
      let auth := (b.drop 2).takeWhile (fun c => c ≠ '/' ∧ c ≠ '?' ∧ c ≠ '#')
      ('/' :: '/' :: auth, (b.drop 2).drop auth.length)
    else ([], b)

/-- `urllib.parse.urljoin(base, ref)`, modelled for http(s)-style URLs
(no dot-segment normalisation; exotic schemes not modelled). -/
def urljoin (base ref : String) : String :=
  if ref = "" then base
  else if (schemeSplit ref.data).isSome then ref
  else
    let (schAuth, rest) := splitBase base.data
    if prefixOf "//".data ref.data then
      match schemeSplit base.data with
      | some (sch, _) => ⟨sch⟩ ++ ":" ++ ref
      | none => ref
    else if ref.data.head? = some '/' then ⟨schAuth⟩ ++ ref
    else
      let path := rest.takeWhile (fun c => c ≠ '?' ∧ c ≠ '#')
      match lastIdxOf '/' path with
      | some i => ⟨schAuth ++ path.take (i + 1)⟩ ++ ref
      | none => if schAuth.isEmpty then ref else ⟨schAuth⟩ ++ "/" ++ ref

/- ------------------------------------------------------------------ -/
/- Article records                                                     -/
/- ------------------------------------------------------------------ -/

/-- An article dictionary as produced by the site parsers.  String keys the
parsers always set are plain `String` fields; optional keys are `Option`
(`fmt` models the dict key `"format"`). -/
structure Post where
  title : String := ""
  link : String := ""
  date : String := ""
  description : Option String := none
  category : Option String := none
  image : Option String := none
  artist : Option String := none
  album_name : Option String := none
  released : Option String := none
  style : Option String := none
  fmt : Option String := none
  size : Option String := none
deriving DecidableEq

/-- Erase the only clock-dependent field of a record. -/
def eraseDate (p : Post) : Post := { p with date := "" }

/- ------------------------------------------------------------------ -/
/- parse_immich (parsers.py lines 82-206)                              -/
/- ------------------------------------------------------------------ -/

def isTagIn (ts : List String) (n : Node) : Bool :=
  match n with
  | .elem t _ _ => ts.contains t
  | _ => false

/-- First descendant matching `p` (`tag.find(...)`). -/
def Node.findFirst (p : Node → Bool) (n : Node) : Option Node :=
  (n.descendants.filter p).head?

/-- An `a` element carrying an `href` attribute (`find("a", href=True)`). -/
def isAnchorWithHref (n : Node) : Bool :=
  match n with
  | .elem "a" _ _ => (getAttr n "href").isSome
  | _ => false

/-- Primary container predicate of `parse_immich`:
`find_all(["article","div"], class_=lambda x: x and ("post" in x.lower() or
"blog" in x.lower()))` (the class attribute is matched as its raw string). -/
def immichPrimaryPred (n : Node) : Bool :=
  match n with
  | .elem t _ _ =>
    (t == "article" || t == "div") &&
      (match getAttr n "class" with
       | some c => strContainsSub (lowerStr c) "post" || strContainsSub (lowerStr c) "blog"
       | none => false)
  | _ => false

/-- Fallback anchors of `parse_immich`: `find_all("a", href=lambda x: x and
"/blog/" in x and x != "/blog" and x != "/blog/")`. -/
def immichFallbackPred (n : Node) : Bool :=
  match n with
  | .elem "a" _ _ =>
    (match getAttr n "href" with
     | some h => strContainsSub h "/blog/" && h != "/blog" && h != "/blog/"
     | none => false)
  | _ => false

/-- Raw title text of a candidate: the first `h1`-`h4` descendant's stripped
text, else the anchor's own text when the candidate is an `a`, else the
candidate is skipped (parsers.py lines 112-118). -/
def immichTitleRaw (article : Node) : Option String :=
  match article.findFirst (isTagIn ["h1", "h2", "h3", "h4"]) with
  | some te => some (getTextStrip te)
  | none =>
    match article with
    | .elem "a" _ _ => some (getTextStrip article)
    | _ => none

/-- Link element of a candidate: the candidate itself when it is an `a`
(its `href` is guaranteed by the fallback query; an anchor with no `href`
would raise a `KeyError` in the source and is modelled as a skip),
otherwise `find("a", href=True)` (parsers.py line 137). -/
def immichLink (article : Node) : Option String :=
  match article with
  | .elem "a" _ _ => getAttr article "href"
  | _ => (article.findFirst isAnchorWithHref).bind (fun le => getAttr le "href")

/-- Element with `"date"` in its class name (`find(["time","span","div"],
class_=lambda x: x and "date" in x.lower())`). -/
def isDateClass (n : Node) : Bool :=
  isTagIn ["time", "span", "div"] n &&
    (match getAttr n "class" with
     | some c => strContainsSub (lowerStr c) "date"
     | none => false)

/-- Date-extraction fallback chain of `parse_immich` (parsers.py lines
143-186); each step's falsy result (`None` or `""`) moves to the next, the
final fallback is today's date `now`. -/
def immichDate (now : String) (article : Node) (href : String) : String :=
  let d1 : Option String :=
    match article.findFirst (isTagOf "time") with
    | some te =>
      match getAttr te "datetime" with
      | some d => if d = "" then none else some d
      | none => none
    | none => none
  match d1 with
  | some d => d
  | none =>
    let d2 : Option String :=
      match article.findFirst isDateClass with
      | some de =>
        let v := match getAttr de "datetime" with
          | some dv => if dv = "" then getTextStrip de else dv
          | none => getTextStrip de
        if v = "" then none else some v
      | none => none
    match d2 with
    | some d => d
    | none =>
      match searchSlashDate href.data with
      | some d => d
      | none =>
        match searchMonthPattern monthNamesFull (getText article).data with
        | some d => d
        | none =>
          match searchMonthPattern monthAbbrevs (getText article).data with
          | some d => d
          | none => now

/-- Excerpt/description element (`find(["p","div"], class_=lambda x: x and
("excerpt" in x.lower() or "description" in x.lower()))`). -/
def isExcerptClass (n : Node) : Bool :=
  isTagIn ["p", "div"] n &&
    (match getAttr n "class" with
     | some c =>
       strContainsSub (lowerStr c) "excerpt" || strContainsSub (lowerStr c) "description"
     | none => false)

/-- Description extraction of `parse_immich` (parsers.py lines 188-201). -/
def immichDescription (article : Node) (title : String) : String :=
  match article.findFirst isExcerptClass with
  | some de => getTextStrip de
  | none =>
    match article.findFirst (isTagOf "p") with
    | some pe => getTextStrip pe
    | none => title

/-- Processing of one `parse_immich` candidate container. -/
def immichProcess (url now : String) (article : Node) : Option Post :=
  match immichTitleRaw article with
  | none => none
  | some raw =>
    let title := immichCleanTitle raw
    match immichLink article with
    | none => none
    | some href =>
      let link := urljoin url href
      let date := immichDate now article href
      let desc := immichDescription article title
      if title ≠ "" ∧ link ≠ "" then
        some { title := title, link := link, date := date, description := some desc }
      else none

/-- `parse_immich(html_content, url)` on the parsed forest; `now` is the
clock reading used by the date fallback.  Note: unlike the other two site
parsers, there is no seen-links deduplication here. -/
def parse_immich (roots : List Node) (url now : String) : List Post :=
  let articles := (forestNodes roots).filter immichPrimaryPred
  let articles := if articles.isEmpty then (forestNodes roots).filter immichFallbackPred
                  else articles
  articles.filterMap (immichProcess url now)

/- ------------------------------------------------------------------ -/
/- parse_diariodominho (parsers.py lines 209-284)                      -/
/- ------------------------------------------------------------------ -/

/-- Anchor query of `parse_diariodominho`: `find_all("a", href=lambda x:
x and "/noticias/" in x)`. -/
def ddmAnchorPred (n : Node) : Bool :=
  match n with
  | .elem "a" _ _ =>
    (match getAttr n "href" with
     | some h => h != "" && strContainsSub h "/noticias/"
     | none => false)
  | _ => false

/-- Title extraction of `parse_diariodominho` (parsers.py lines 243-260):
first `h1`-`h4`/`span` descendant's text if non-empty and longer than 5
characters, else the anchor's own text under the same condition, else the
candidate is skipped. -/
def ddmTitle (a : Node) : Option String :=
  match a.findFirst (isTagIn ["h1", "h2", "h3", "h4", "span"]) with
  | some te =>
    if getTextStrip te ≠ "" ∧ 5 < (getTextStrip te).length then some (getTextStrip te)
    else if getTextStrip a ≠ "" ∧ 5 < (getTextStrip a).length then some (getTextStrip a)
    else none
  | none =>
    if getTextStrip a ≠ "" ∧ 5 < (getTextStrip a).length then some (getTextStrip a)
    else none

/-- Main loop of `parse_diariodominho`: `seen` is the `seen_links` set (a
link is recorded as seen before the title check, exactly as in the
source). -/
def ddmLoop (url now : String) : List Node → List String → List Post
  | [], _ => []
  | a :: rest, seen =>
    match getAttr a "href" with
    | none => ddmLoop url now rest seen
    | some link =>
      if link = "" then ddmLoop url now rest seen
      else if urljoin url link ∈ seen then ddmLoop url now rest seen
      else
        match ddmTitle a with
        | none => ddmLoop url now rest (urljoin url link :: seen)
        | some title =>
          if title ≠ "" ∧ urljoin url link ≠ "" then
            { title := title, link := urljoin url link,
              date := (searchDdmDate (urljoin url link).data).getD now,
              description := some (match a.findFirst (isTagOf "p") with
                | some pe => getTextStrip pe
                | none => title),
              category := (searchCategory (urljoin url link).data).map pyTitle } ::
              ddmLoop url now rest (urljoin url link :: seen)
          else ddmLoop url now rest (urljoin url link :: seen)

/-- `parse_diariodominho(html_content, url)` on the parsed forest. -/
def parse_diariodominho (roots : List Node) (url now : String) : List Post :=
  ddmLoop url now ((forestNodes roots).filter ddmAnchorPred) []

/- ------------------------------------------------------------------ -/
/- parse_newalbumreleases_metal (parsers.py lines 287-436)             -/
/- ------------------------------------------------------------------ -/

/-- `class_="single"` etc.: BeautifulSoup exact-class matching against the
multi-valued class attribute. -/
def classHasWord (n : Node) (w : String) : Bool := (classTokens n).contains w

/-- Matches `On\s+(FullMonth)\s+-\s+(\d{1,2})\s+-\s+(\d{4})` at the head,
returning (month name, day digits, year digits). -/
def clockAt (cs : List Char) : Option (String × String × String) :=
  if prefixOf "On".data cs then
    let r1 := cs.drop 2
    let w1 := r1.takeWhile isPyWs
    if w1.isEmpty then none
    else
      match matchAnyName monthNamesFull (r1.drop w1.length) with
      | some nm =>
        let r2 := (r1.drop w1.length).drop nm.length
        let w2 := r2.takeWhile isPyWs
        if w2.isEmpty then none
        else
          match r2.drop w2.length with
          | '-' :: r3 =>
            let w3 := r3.takeWhile isPyWs
            if w3.isEmpty then none
            else
              match r3.drop w3.length with
              | d1 :: rest1 =>
                if d1.isDigit then
                  match rest1 with
                  | d2 :: rest2 =>
                    if d2.isDigit then
                      match clockTail rest2 with
                      | some y => some (⟨nm⟩, ⟨[d1, d2]⟩, y)
                      | none =>
                        match clockTail rest1 with
                        | some y => some (⟨nm⟩, ⟨[d1]⟩, y)
                        | none => none
                    else
                      match clockTail rest1 with
                      | some y => some (⟨nm⟩, ⟨[d1]⟩, y)
                      | none => none
                  | [] => none
                else none
              | [] => none
          | _ => none
      | none => none
  else none
where
  /-- Matches the trailing `\s+-\s+(\d{4})`. -/
  clockTail (r : List Char) : Option String :=
    let w := r.takeWhile isPyWs
    if w.isEmpty then none
    else
      match r.drop w.length with
      | '-' :: r2 =>
        let w2 := r2.takeWhile isPyWs
        if w2.isEmpty then none
        else
          let y := (r2.drop w2.length).take 4
          if y.length = 4 ∧ y.all Char.isDigit then some ⟨y⟩ else none
      | _ => none

/-- The clock-date regex search of `parse_newalbumreleases_metal`
(parsers.py lines 332-335). -/
def searchClock (cs : List Char) : Option (String × String × String) := scanFor clockAt cs

/-- The month-name-to-number map of `parse_newalbumreleases_metal`, with its
`"01"` default. -/
def monthNum (nm : String) : String :=
  if nm = "January" then "01"
  else if nm = "February" then "02"
  else if nm = "March" then "03"
  else if nm = "April" then "04"
  else if nm = "May" then "05"
  else if nm = "June" then "06"
  else if nm = "July" then "07"
  else if nm = "August" then "08"
  else if nm = "September" then "09"
  else if nm = "October" then "10"
  else if nm = "November" then "11"
  else if nm = "December" then "12"
  else "01"

/-- Python `str.zfill(2)`. -/
def zfill2 (s : String) : String := if s.length < 2 then "0" ++ s else s

/-- Date extraction of `parse_newalbumreleases_metal` (parsers.py lines
325-363): `div.date` → `span.clock` → clock regex, falling back to `now`. -/
def metalDate (now : String) (single : Node) : String :=
  match single.findFirst (fun n => isTagOf "div" n && classHasWord n "date") with
  | none => now
  | some dd =>
    match dd.findFirst (fun n => isTagOf "span" n && classHasWord n "clock") with
    | none => now
    | some cl =>
      match searchClock (getTextStrip cl).data with
      | none => now
      | some (nm, day, yr) => yr ++ "-" ++ monthNum nm ++ "-" ++ zfill2 day

/-- `re.search(r"Label\s*([^\n]+)", text)` for a labelled line, returning
the stripped group (the Python match can also produce a group that strips
to empty; both outcomes are falsy downstream and modelled alike). -/
def labelAt (label : List Char) (cs : List Char) : Option String :=
  if prefixOf label cs then
    let r := cs.drop label.length
    let r1 := r.dropWhile isPyWs
    if r1 ≠ [] then some (trimStr ⟨r1.takeWhile (fun c => c ≠ '\n')⟩)
    else if r.any (fun c => c ≠ '\n' && isPyWs c) then some ""
    else none
  else none

def searchLabel (label : String) (cs : List Char) : Option String :=
  scanFor (labelAt label.data) cs

/-- A labelled value is rendered in the description only when truthy. -/
def liPart (label : String) (v : Option String) : String :=
  match v with
  | some s => if s = "" then "" else "<li><strong>" ++ label ++ ":</strong> " ++ s ++ "</li>"
  | none => ""

/-- Entry-div processing of `parse_newalbumreleases_metal` (parsers.py lines
366-431): labelled-field extraction and the generated HTML description. -/
def metalEntry (title link date : String) (single : Node) : Post :=
  match single.findFirst (fun n => isTagOf "div" n && classHasWord n "entry") with
  | none => { title := title, link := link, date := date, description := some title }
  | some ed =>
    let image : Option String :=
      match ed.findFirst (isTagOf "img") with
      | some im =>
        match getAttr im "src" with
        | some src => if src = "" then none else some src
        | none => none
      | none => none
    let etext := (getText ed).data
    let artist := searchLabel "Artist:" etext
    let album_name := searchLabel "Album:" etext
    let released := searchLabel "Released:" etext
    let style := searchLabel "Style:" etext
    let fmt := searchLabel "Format:" etext
    let size := searchLabel "Size:" etext
    let imgPart := match image with
      | some i => "<p><img src=\"" ++ i ++ "\" alt=\"Album cover\" /></p>"
      | none => ""
    let desc := imgPart ++ "<p><strong>Album Details:</strong></p>" ++ "<ul>" ++
      liPart "Artist" artist ++ liPart "Album" album_name ++ liPart "Released" released ++
      liPart "Style" style ++ liPart "Format" fmt ++ liPart "Size" size ++ "</ul>"
    { title := title, link := link, date := date, description := some desc,
      image := image, artist := artist, album_name := album_name,
      released := released, style := style, fmt := fmt, size := size }

/-- Main loop of `parse_newalbumreleases_metal` over the `div.single`
candidates; `seen` is the `seen_links` set (raw hrefs — the source performs
no `urljoin` here). -/
def metalLoop (now : String) : List Node → List String → List Post
  | [], _ => []
  | s :: rest, seen =>
    match s.findFirst (isTagOf "h2") with
    | none => metalLoop now rest seen
    | some h2 =>
      match h2.findFirst isAnchorWithHref with
      | none => metalLoop now rest seen
      | some le =>
        match getAttr le "href" with
        | none => metalLoop now rest seen
        | some link =>
          if link ∈ seen then metalLoop now rest seen
          else if getTextStrip le ≠ "" ∧ link ≠ "" then
            -- the final emission check is on `album["title"]`/`album["link"]`,
            -- which `metalEntry` stores unchanged
            metalEntry (getTextStrip le) link (metalDate now s) s ::
              metalLoop now rest (link :: seen)
          else metalLoop now rest (link :: seen)

/-- `parse_newalbumreleases_metal(html_content, url)` on the parsed forest
(`url` is accepted but never used by the source body). -/
def parse_newalbumreleases_metal (roots : List Node) (_url now : String) : List Post :=
  metalLoop now ((forestNodes roots).filter (fun n => isTagOf "div" n && classHasWord n "single")) []

/- ------------------------------------------------------------------ -/
/- sites.py                                                            -/
/- ------------------------------------------------------------------ -/

/-- A site-configuration dictionary (sites.py; `parserName` models the dict
key `"parser"`). -/
structure SiteConfig where
  id : String
  name : String
  url : String
  output_file : String
  parserName : String
  language : String
  description : String
  email : String
  wait_time : Nat
  max_articles : Nat
deriving DecidableEq

/-- The `SITES` registry (sites.py lines 3-40). -/
def SITES : List (String × SiteConfig) :=
  [("immich",
    { id := "immich", name := "Immich Blog", url := "https://immich.app/blog",
      output_file := "immich_blog_feed.xml", parserName := "parse_immich",
      language := "en", description := "Latest posts from the Immich blog",
      email := "noreply@immich.app", wait_time := 2000, max_articles := 10 }),
   ("diariodominho",
    { id := "diariodominho", name := "Diário do Minho",
      url := "https://www.diariodominho.pt/",
      output_file := "diariodominho_feed.xml", parserName := "parse_diariodominho",
      language := "pt", description := "Últimas notícias do Diário do Minho",
      email := "noreply@diariodominho.pt", wait_time := 3000, max_articles := 10 }),
   ("newalbumreleases_metal",
    { id := "newalbumreleases_metal", name := "New Album Releases - Metal",
      url := "https://www.newalbumreleases.cc/category/metal/",
      output_file := "newalbumreleases_metal_feed.xml",
      parserName := "parse_newalbumreleases_metal", language := "en",
      description := "Latest metal album releases from NewAlbumReleases.cc",
      email := "noreply@newalbumreleases.cc", wait_time := 2000, max_articles := 20 })]

/-- `get_site_config(site_id)` (sites.py line 43). -/
def get_site_config (site_id : String) : Option SiteConfig :=
  (SITES.find? (fun p => p.1 == site_id)).map (fun p => p.2)

/- ------------------------------------------------------------------ -/
/- generate_rss_feed (common.py lines 50-110)                          -/
/- ------------------------------------------------------------------ -/

/-- A naive `datetime` as produced by `datetime.strptime`. -/
structure DateTime where
  year : Nat
  month : Nat
  day : Nat
  hour : Nat
  minute : Nat
  second : Nat
deriving DecidableEq

def isLeapYear (y : Nat) : Bool := (y % 4 = 0 && y % 100 ≠ 0) || y % 400 = 0

def daysInMonth (y m : Nat) : Nat :=
  if m = 2 then (if isLeapYear y then 29 else 28)
  else if m = 4 ∨ m = 6 ∨ m = 9 ∨ m = 11 then 30
  else 31

/-- Validity enforced by the `datetime` constructor after `_strptime`. -/
def validDate (y m d : Nat) : Bool :=
  1 ≤ y && y ≤ 9999 && 1 ≤ d && d ≤ daysInMonth y m

def digitVal (c : Char) : Nat := c.toNat - 48

def digitsVal (cs : List Char) : Nat := cs.foldl (fun acc c => acc * 10 + digitVal c) 0

/-- `%Y` of `_strptime`: exactly four digits. -/
def year4 (cs : List Char) : Option (Nat × List Char) :=
  let y := cs.take 4
  if y.length = 4 ∧ y.all Char.isDigit then some (digitsVal y, cs.drop 4) else none

/-- `%m` of `_strptime` (`1[0-2]|0[1-9]|[1-9]`): the candidate parses in
regex-alternation order, each with the remainder to hand to the
continuation. -/
def monthAlts (r : List Char) : List (Nat × List Char) :=
  (match r with
   | c1 :: c2 :: rest =>
     (if c1 = '1' ∧ (c2 = '0' ∨ c2 = '1' ∨ c2 = '2') then [(digitsVal [c1, c2], rest)] else []) ++
     (if c1 = '0' ∧ c2.isDigit ∧ c2 ≠ '0' then [(digitVal c2, rest)] else [])
   | _ => []) ++
  (match r with
   | c1 :: rest => if c1.isDigit ∧ c1 ≠ '0' then [(digitVal c1, rest)] else []
   | [] => [])

/-- `%d` of `_strptime` (`3[01]|[12]\d|0[1-9]|[1-9]`). -/
def dayAlts (r : List Char) : List (Nat × List Char) :=
  (match r with
   | c1 :: c2 :: rest =>
     (if c1 = '3' ∧ (c2 = '0' ∨ c2 = '1') then [(digitsVal [c1, c2], rest)] else []) ++
     (if (c1 = '1' ∨ c1 = '2') ∧ c2.isDigit then [(digitsVal [c1, c2], rest)] else []) ++
     (if c1 = '0' ∧ c2.isDigit ∧ c2 ≠ '0' then [(digitVal c2, rest)] else [])
   | _ => []) ++
  (match r with
   | c1 :: rest => if c1.isDigit ∧ c1 ≠ '0' then [(digitVal c1, rest)] else []
   | [] => [])

/-- `%H` of `_strptime` (`2[0-3]|[0-1]\d|\d`). -/
def hourAlts (r : List Char) : List (Nat × List Char) :=
  (match r with
   | c1 :: c2 :: rest =>
     (if c1 = '2' ∧ (c2 = '0' ∨ c2 = '1' ∨ c2 = '2' ∨ c2 = '3') then [(digitsVal [c1, c2], rest)] else []) ++
     (if (c1 = '0' ∨ c1 = '1') ∧ c2.isDigit then [(digitsVal [c1, c2], rest)] else [])
   | _ => []) ++
  (match r with
   | c1 :: rest => if c1.isDigit then [(digitVal c1, rest)] else []
   | [] => [])

/-- `%M`/`%S` of `_strptime` (`[0-5]\d|\d`; the leap-second forms of `%S`
are rejected by the `datetime` constructor anyway). -/
def minSecAlts (r : List Char) : List (Nat × List Char) :=
  (match r with
   | c1 :: c2 :: rest =>
     if (c1 = '0' ∨ c1 = '1' ∨ c1 = '2' ∨ c1 = '3' ∨ c1 = '4' ∨ c1 = '5') ∧ c2.isDigit
     then [(digitsVal [c1, c2], rest)] else []
   | _ => []) ++
  (match r with
   | c1 :: rest => if c1.isDigit then [(digitVal c1, rest)] else []
   | [] => [])

/-- `datetime.strptime(s, "%Y-%m-%d")`. -/
def strptimeYMD (cs : List Char) : Option DateTime :=
  match year4 cs with
  | none => none
  | some (y, r1) =>
    match r1 with
    | '-' :: r2 =>
      (monthAlts r2).findSome? (fun (m, r3) =>
        match r3 with
        | '-' :: r4 =>
          (dayAlts r4).findSome? (fun (d, r5) =>
            if r5 = [] ∧ validDate y m d then some ⟨y, m, d, 0, 0, 0⟩ else none)
        | _ => none)
    | _ => none

/-- `datetime.strptime(s, "%Y-%m-%dT%H:%M:%S")`. -/
def strptimeYMDT (cs : List Char) : Option DateTime :=
  match year4 cs with
  | none => none
  | some (y, r1) =>
    match r1 with
    | '-' :: r2 =>
      (monthAlts r2).findSome? (fun (m, r3) =>
        match r3 with
        | '-' :: r4 =>
          (dayAlts r4).findSome? (fun (d, r5) =>
            match r5 with
            | 'T' :: r6 =>
              (hourAlts r6).findSome? (fun (hh, r7) =>
                match r7 with
                | ':' :: r8 =>
                  (minSecAlts r8).findSome? (fun (mi, r9) =>
                    match r9 with
                    | ':' :: r10 =>
                      (minSecAlts r10).findSome? (fun (ss, r11) =>
                        if r11 = [] ∧ validDate y m d ∧ ss ≤ 59
                        then some ⟨y, m, d, hh, mi, ss⟩ else none)
                    | _ => none)
                | _ => none)
            | _ => none)
        | _ => none)
    | _ => none

/-- `%B`/`%b` of `_strptime`: case-insensitive month-name match. -/
def matchMonthName (names : List String) (cs : List Char) : Option (Nat × List Char) :=
  names.enum.findSome? (fun (i, nm) =>
    if prefixOf (lowerStr nm).data (cs.map Char.toLower) then some (i + 1, cs.drop nm.length)
    else none)

/-- `datetime.strptime(s, "%B %d, %Y")` / `"%b %d, %Y"` (the literal blank
in the format matches `\s+`). -/
def strptimeMonthDY (names : List String) (cs : List Char) : Option DateTime :=
  match matchMonthName names cs with
  | none => none
  | some (m, r1) =>
    let w := r1.takeWhile isPyWs
    if w.isEmpty then none
    else
      (dayAlts (r1.drop w.length)).findSome? (fun (d, r3) =>
        match r3 with
        | ',' :: r4 =>
          let w2 := r4.takeWhile isPyWs
          if w2.isEmpty then none
          else
            match year4 (r4.drop w2.length) with
            | some (y, r5) =>
              if r5 = [] ∧ validDate y m d then some ⟨y, m, d, 0, 0, 0⟩ else none
            | none => none
        | _ => none)

/-- The date-format fallback chain of `generate_rss_feed` (common.py lines
91-97): `['%Y-%m-%d', '%Y-%m-%dT%H:%M:%S', '%B %d, %Y', '%b %d, %Y']`,
first format that parses wins. -/
def feedPublished (s : String) : Option DateTime :=
  match strptimeYMD s.data with
  | some dt => some dt
  | none =>
    match strptimeYMDT s.data with
    | some dt => some dt
    | none =>
      match strptimeMonthDY monthNamesFull s.data with
      | some dt => some dt
      | none => strptimeMonthDY monthAbbrevs s.data

/-- A feed entry as assembled by `generate_rss_feed` (`fe.id`, `fe.title`,
`fe.link`, `fe.description`, optional category, optional published). -/
structure FeedEntry where
  entryId : String
  title : String
  link : String
  description : String
  category : Option String
  published : Option DateTime
deriving DecidableEq

/-- One `fg.add_entry()` body (common.py lines 76-99): id/link from the
article link, description defaulting to the title, category only when
truthy, and the published timestamp from the date-format fallback chain
(the external feed library's entry setter is modelled as field
assignment). -/
def entryOfArticle (a : Post) : FeedEntry :=
  { entryId := a.link, title := a.title, link := a.link,
    description := a.description.getD a.title,
    category := match a.category with
      | some c => if c = "" then none else some c
      | none => none,
    published := if a.date = "" then none else feedPublished a.date }

/-- Channel plus entries, the output of `generate_rss_feed` before
serialization. -/
structure Feed where
  channelId : String
  channelTitle : String
  authorName : String
  authorEmail : String
  channelLink : String
  channelDescription : String
  channelLanguage : String
  entries : List FeedEntry
deriving DecidableEq

/-- `generate_rss_feed(articles, output_file, site_config)` (common.py lines
50-110), modelled as the constructed feed value: channel metadata from the
site config and one entry per article, in iteration order.  There is no
`max_articles` truncation in this function. -/
def generate_rss_feed (articles : List Post) (cfg : SiteConfig) : Feed :=
  { channelId := cfg.url, channelTitle := cfg.name, authorName := cfg.name,
    authorEmail := cfg.email, channelLink := cfg.url,
    channelDescription := cfg.description, channelLanguage := cfg.language,
    entries := articles.map entryOfArticle }

/- ------------------------------------------------------------------ -/
/- _add_xsl_stylesheet (common.py lines 113-138)                       -/
/- ------------------------------------------------------------------ -/

/-- The XML declaration emitted by `fg.rss_file` that the source replaces. -/
def xmlDecl : String := "<?xml version='1.0' encoding='UTF-8'?>\n"

/-- The injected stylesheet processing instruction. -/
def xslPi : String := "<?xml-stylesheet type=\"text/xsl\" href=\"feed.xsl\"?>\n"

/-- The containment test the source uses to detect an existing
instruction. -/
def xslMarker : String := "<?xml-stylesheet"

/-- Python `str.replace(old, new, 1)`. -/
def replaceOnce (pat rep : List Char) : List Char → List Char
  | [] => []
  | c :: rest =>
    if prefixOf pat (c :: rest) then rep ++ (c :: rest).drop pat.length
    else c :: replaceOnce pat rep rest

/-- `_add_xsl_stylesheet(xml_file)` (common.py lines 113-138), modelled as
the transformation of the file's content: skipped when a stylesheet
instruction is already present, otherwise the stylesheet instruction is
inserted after the first XML declaration. -/
def _add_xsl_stylesheet (content : String) : String :=
  if strContainsSub content xslMarker then content
  else ⟨replaceOnce xmlDecl.data (xmlDecl.data ++ xslPi.data) content.data⟩

/-- Number of positions at which `pat` occurs in `s` (overlaps counted). -/
def countOcc (pat : List Char) : List Char → Nat
  | [] => if prefixOf pat [] then 1 else 0
  | c :: rest => (if prefixOf pat (c :: rest) then 1 else 0) + countOcc pat rest

/- ------------------------------------------------------------------ -/
/- Substring-occurrence lemmas (for the stylesheet-injection claim)    -/
/- ------------------------------------------------------------------ -/

theorem prefixOf_iff (pat s : List Char) : prefixOf pat s = true ↔ ∃ t, s = pat ++ t := by
  induction pat generalizing s with
  | nil => simp [prefixOf]
  | cons a as ih =>
    cases s with
    | nil => simp [prefixOf]
    | cons b bs =>
      simp only [prefixOf, Bool.and_eq_true, beq_iff_eq, ih, List.cons_append,
        List.cons.injEq]
      constructor
      · rintro ⟨rfl, t, rfl⟩
        exact ⟨t, rfl, rfl⟩
      · rintro ⟨t, rfl, rfl⟩
        exact ⟨rfl, t, rfl⟩

theorem prefixOf_append_self (pat t : List Char) : prefixOf pat (pat ++ t) = true :=
  (prefixOf_iff _ _).mpr ⟨t, rfl⟩

theorem prefixOf_append_right (pat u v : List Char) (h : prefixOf pat u = true) :
    prefixOf pat (u ++ v) = true := by
  obtain ⟨t, rfl⟩ := (prefixOf_iff _ _).mp h
  rw [List.append_assoc]
  exact prefixOf_append_self _ _

theorem prefixOf_of_append_le (pat x y : List Char) (hl : pat.length ≤ x.length)
    (h : prefixOf pat (x ++ y) = true) : prefixOf pat x = true := by
  obtain ⟨t, ht⟩ := (prefixOf_iff _ _).mp h
  have hx : x.take pat.length = pat := by
    have h1 : (x ++ y).take pat.length = x.take pat.length := by
      rw [List.take_append_of_le_length hl]
    rw [ht, List.take_left' rfl] at h1
    exact h1.symm
  refine (prefixOf_iff _ _).mpr ⟨x.drop pat.length, ?_⟩
  conv_lhs => rw [← List.take_append_drop pat.length x]
  rw [hx]

theorem prefixOf_getElem (pat s : List Char) (h : prefixOf pat s = true)
    (j : Nat) (hj : j < pat.length) : s[j]? = pat[j]? := by
  obtain ⟨t, rfl⟩ := (prefixOf_iff _ _).mp h
  rw [List.getElem?_append_left hj]

theorem containsSub_eq_false_iff (pat s : List Char) :
    containsSub pat s = false ↔ countOcc pat s = 0 := by
  induction s with
  | nil =>
    simp only [containsSub, countOcc]
    cases h : prefixOf pat [] <;> simp [h]
  | cons c rest ih =>
    simp only [containsSub, countOcc, Bool.or_eq_false_iff, ih]
    cases h : prefixOf pat (c :: rest) <;> simp [h]

theorem replaceOnce_not_contains (pat rep s : List Char)
    (h : containsSub pat s = false) : replaceOnce pat rep s = s := by
  induction s with
  | nil => rfl
  | cons c rest ih =>
    simp only [containsSub, Bool.or_eq_false_iff] at h
    simp only [replaceOnce, h.1, Bool.false_eq_true, if_false]
    rw [ih h.2]

theorem replaceOnce_split (pat rep s : List Char) (hp : pat ≠ [])
    (h : containsSub pat s = true) :
    ∃ u v, s = u ++ pat ++ v ∧ replaceOnce pat rep s = u ++ rep ++ v := by
  induction s with
  | nil =>
    simp only [containsSub] at h
    obtain ⟨t, ht⟩ := (prefixOf_iff _ _).mp h
    cases pat with
    | nil => exact absurd rfl hp
    | cons a as => simp at ht
  | cons c rest ih =>
    by_cases hpre : prefixOf pat (c :: rest) = true
    · obtain ⟨t, ht⟩ := (prefixOf_iff _ _).mp hpre
      refine ⟨[], t, by simpa using ht, ?_⟩
      simp only [replaceOnce, hpre, if_true]
      rw [ht, List.drop_left]
      simp
    · simp only [containsSub, Bool.or_eq_true] at h
      rcases h with h | h
      · exact absurd h hpre
      · obtain ⟨u, v, hs, hr⟩ := ih h
        refine ⟨c :: u, v, by simp [hs], ?_⟩
        simp only [replaceOnce, hpre, if_false]
        simp [hr]

theorem countOcc_eq_countP (pat s : List Char) :
    countOcc pat s =
      List.countP (fun i => prefixOf pat (s.drop i)) (List.range (s.length + 1)) := by
  induction s with
  | nil => simp [countOcc, List.countP, List.countP.go]
  | cons c rest ih =>
    rw [countOcc, ih]
    have hr : List.range (rest.length + 1 + 1) =
        0 :: (List.range (rest.length + 1)).map Nat.succ := List.range_succ_eq_map _
    simp only [List.length_cons, hr, List.countP_cons, List.countP_map]
    have : ((fun i => prefixOf pat ((c :: rest).drop i)) ∘ Nat.succ) =
        (fun i => prefixOf pat (rest.drop i)) := by
      funext i
      rfl
    rw [this]
    simp only [List.drop_zero]
    omega

theorem countOcc_zero_no_occ (pat s : List Char) (hp : pat ≠ [])
    (h : countOcc pat s = 0) (i : Nat) : prefixOf pat (s.drop i) = false := by
  by_cases hi : i < s.length + 1
  · rw [countOcc_eq_countP] at h
    have := List.countP_eq_zero.mp h i (List.mem_range.mpr hi)
    simpa using this
  · have hlen : s.length ≤ i := by omega
    rw [List.drop_eq_nil_of_le hlen]
    cases pat with
    | nil => exact absurd rfl hp
    | cons a as => rfl

theorem countP_range_eq_one {p : Nat → Bool} {m N : Nat} (hN : N < m)
    (h : ∀ i, i < m → (p i = true ↔ i = N)) :
    List.countP p (List.range m) = 1 := by
  have hcongr : ∀ i ∈ List.range m, p i = true ↔ (i == N) = true := by
    intro i hi
    rw [h i (List.mem_range.mp hi)]
    simp
  rw [List.countP_congr hcongr]
  have h1 : List.countP (fun i => i == N) (List.range m) = List.count N (List.range m) := by
    simp [List.count]
  rw [h1]
  exact List.count_eq_one_of_mem (List.nodup_range m) (List.mem_range.mpr hN)

/-- After inserting the stylesheet instruction right after a declaration in
a marker-free content, the marker occurs exactly once. -/
theorem countOcc_after_insert (pre suf : List Char)
    (h : countOcc xslMarker.data (pre ++ xmlDecl.data ++ suf) = 0) :
    countOcc xslMarker.data (pre ++ xmlDecl.data ++ (xslPi.data ++ suf)) = 1 := by
  have hMne : xslMarker.data ≠ [] := by decide
  have hMnl : ('\n' ∈ xslMarker.data) = False := by
    simp only [eq_iff_iff, iff_false]
    decide
  have hM0 : xslMarker.data[0]? = some '<' := by decide
  have hPfx : prefixOf xslMarker.data xslPi.data = true := by decide
  have hPlt : ∀ j, j < xslPi.data.length → 0 < j → ¬xslPi.data[j]? = some '<' := by decide
  have hDlast : xmlDecl.data[xmlDecl.data.length - 1]? = some '\n' := by decide
  have hDpos : 0 < xmlDecl.data.length := by decide
  have hMpos : 0 < xslMarker.data.length := by decide
  set M := xslMarker.data with hM
  set D := xmlDecl.data with hD
  set P := xslPi.data with hP
  set A := pre ++ D with hA
  have hsA : pre ++ D ++ (P ++ suf) = A ++ (P ++ suf) := by rw [hA]
  have hcA : pre ++ D ++ suf = A ++ suf := by rw [hA]
  rw [hcA] at h
  rw [hsA, countOcc_eq_countP]
  set s := A ++ (P ++ suf) with hs
  have hsl : A.length ≤ s.length := by
    rw [hs]
    simp
  apply countP_range_eq_one (N := A.length) (Nat.lt_succ_of_le hsl)
  intro i hi
  constructor
  · intro hpre
    by_contra hne
    rcases Nat.lt_or_ge i A.length with hlt | hge
    · rcases le_or_lt (i + M.length) A.length with hfit | hstraddle
      · -- the occurrence would lie entirely inside `A`, giving one in the
        -- original content
        have hdrop : s.drop i = A.drop i ++ (P ++ suf) := by
          rw [hs, List.drop_append_of_le_length (Nat.le_of_lt hlt)]
        have hlenAi : M.length ≤ (A.drop i).length := by
          rw [List.length_drop]
          omega
        have hinA : prefixOf M (A.drop i) = true := by
          apply prefixOf_of_append_le M (A.drop i) (P ++ suf) hlenAi
          rw [← hdrop]
          exact hpre
        have hinC : prefixOf M ((A ++ suf).drop i) = true := by
          rw [List.drop_append_of_le_length (Nat.le_of_lt hlt)]
          exact prefixOf_append_right _ _ _ hinA
        have := countOcc_zero_no_occ M (A ++ suf) hMne h i
        rw [this] at hinC
        cases hinC
      · -- the occurrence would straddle the end of the declaration, but the
        -- declaration ends with a newline and the marker has none
        have hj : A.length - 1 - i < M.length := by omega
        have h1 : (s.drop i)[A.length - 1 - i]? = s[A.length - 1]? := by
          rw [List.getElem?_drop]
          congr 1
          omega
        have h2 : s[A.length - 1]? = A[A.length - 1]? := by
          rw [hs, List.getElem?_append_left (by omega)]
        have h3 : A[A.length - 1]? = D[D.length - 1]? := by
          rw [hA, List.getElem?_append_right (by rw [List.length_append]; omega)]
          congr 1
          rw [List.length_append]
          omega
        have h4 : (s.drop i)[A.length - 1 - i]? = M[A.length - 1 - i]? :=
          prefixOf_getElem _ _ hpre _ hj
        have h5 : M[A.length - 1 - i]? = some '\n' := by
          rw [← h4, h1, h2, h3, hDlast]
        have : '\n' ∈ M := List.getElem?_mem h5
        rw [hMnl] at this
        exact this
    · -- the occurrence would start at or after the insertion point but not
      -- on it
      have hj0 : 0 < i - A.length := by omega
      have hdrop : s.drop i = (P ++ suf).drop (i - A.length) := by
        rw [hs]
        have h' : (A ++ (P ++ suf)).drop (A.length + (i - A.length)) =
            (P ++ suf).drop (i - A.length) := List.drop_append _
        have hieq : A.length + (i - A.length) = i := by omega
        rw [hieq] at h'
        exact h'
      have hhead : (P ++ suf)[i - A.length]? = some '<' := by
        have h1 := prefixOf_getElem _ _ (hdrop ▸ hpre) 0 hMpos
        rw [List.getElem?_drop, Nat.add_zero] at h1
        rw [h1, hM0]
      rcases Nat.lt_or_ge (i - A.length) P.length with hjP | hjP
      · have : (P ++ suf)[i - A.length]? = P[i - A.length]? := List.getElem?_append_left hjP
        rw [this] at hhead
        exact hPlt _ hjP hj0 hhead
      · -- fully inside `suf`: again an occurrence in the original content
        have hdrop2 : (P ++ suf).drop (i - A.length) = suf.drop (i - A.length - P.length) := by
          have h' : (P ++ suf).drop (P.length + (i - A.length - P.length)) =
              suf.drop (i - A.length - P.length) := List.drop_append _
          have hjeq : P.length + (i - A.length - P.length) = i - A.length := by omega
          rw [hjeq] at h'
          exact h'
        have hinC : prefixOf M ((A ++ suf).drop (A.length + (i - A.length - P.length))) = true := by
          rw [List.drop_append]
          rw [hdrop, hdrop2] at hpre
          exact hpre
        have := countOcc_zero_no_occ M (A ++ suf) hMne h (A.length + (i - A.length - P.length))
        rw [this] at hinC
        cases hinC
  · rintro rfl
    rw [hs, List.drop_left]
    exact prefixOf_append_right _ _ _ hPfx

/-- Claim C9: the stylesheet-injection step is idempotent on a feed file
(a file with the XML declaration and no pre-existing stylesheet
instruction): applying it twice equals applying it once, the second
application being a no-op, and the result contains exactly one
`<?xml-stylesheet` processing instruction. -/
theorem xsl_injection_idempotent (c : String)
    (h0 : strContainsSub c xslMarker = false)
    (h1 : strContainsSub c xmlDecl = true) :
    _add_xsl_stylesheet (_add_xsl_stylesheet c) = _add_xsl_stylesheet c ∧
    countOcc xslMarker.data (_add_xsl_stylesheet c).data = 1 := by
  have hD : xmlDecl.data ≠ [] := by decide
  obtain ⟨u, v, hsplit, hrepl⟩ :=
    replaceOnce_split xmlDecl.data (xmlDecl.data ++ xslPi.data) c.data hD h1
  have hfirst : _add_xsl_stylesheet c = ⟨u ++ (xmlDecl.data ++ xslPi.data) ++ v⟩ := by
    unfold _add_xsl_stylesheet
    rw [h0]
    simp only [Bool.false_eq_true, if_false]
    rw [hrepl]
  have hzero : countOcc xslMarker.data c.data = 0 :=
    (containsSub_eq_false_iff _ _).mp h0
  rw [hsplit] at hzero
  have hcount : countOcc xslMarker.data (_add_xsl_stylesheet c).data = 1 := by
    rw [hfirst]
    have hassoc : u ++ (xmlDecl.data ++ xslPi.data) ++ v =
        u ++ xmlDecl.data ++ (xslPi.data ++ v) := by
      simp [List.append_assoc]
    show countOcc xslMarker.data (u ++ (xmlDecl.data ++ xslPi.data) ++ v) = 1
    rw [hassoc]
    exact countOcc_after_insert u v hzero
  refine ⟨?_, hcount⟩
  have hcontains : strContainsSub (_add_xsl_stylesheet c) xslMarker = true := by
    rcases hb : strContainsSub (_add_xsl_stylesheet c) xslMarker with _ | _
    · have : countOcc xslMarker.data (_add_xsl_stylesheet c).data = 0 :=
        (containsSub_eq_false_iff _ _).mp hb
      rw [hcount] at this
      cases this
    · rfl
  conv_lhs => rw [_add_xsl_stylesheet, hcontains]
  simp

/-- Witness for C9 at a concrete feed file content. -/
theorem xsl_injection_idempotent_witness :
    _add_xsl_stylesheet
        (_add_xsl_stylesheet "<?xml version='1.0' encoding='UTF-8'?>\n<rss version=\"2.0\"></rss>") =
      _add_xsl_stylesheet "<?xml version='1.0' encoding='UTF-8'?>\n<rss version=\"2.0\"></rss>" ∧
    countOcc xslMarker.data
        (_add_xsl_stylesheet "<?xml version='1.0' encoding='UTF-8'?>\n<rss version=\"2.0\"></rss>").data = 1 :=
  xsl_injection_idempotent "<?xml version='1.0' encoding='UTF-8'?>\n<rss version=\"2.0\"></rss>"
    (by decide) (by decide)

/- ------------------------------------------------------------------ -/
/- Parser lemmas                                                       -/
/- ------------------------------------------------------------------ -/

theorem immichProcess_mem (url now : String) (a : Node) (p : Post)
    (h : immichProcess url now a = some p) :
    p.title ≠ "" ∧ p.link ≠ "" ∧ ∃ href, p.link = urljoin url href := by
  unfold immichProcess at h
  cases hraw : immichTitleRaw a with
  | none => rw [hraw] at h; cases h
  | some raw =>
    rw [hraw] at h
    cases hlink : immichLink a with
    | none =>
      rw [hlink] at h
      simp at h
    | some href =>
      simp only [hlink] at h
      split at h
      · cases h
        next hcond =>
        exact ⟨hcond.1, hcond.2, href, rfl⟩
      · cases h

theorem immichProcess_eraseDate (url n1 n2 : String) (a : Node) :
    (immichProcess url n1 a).map eraseDate = (immichProcess url n2 a).map eraseDate := by
  unfold immichProcess
  cases hraw : immichTitleRaw a with
  | none => rfl
  | some raw =>
    cases hlink : immichLink a with
    | none => rfl
    | some href =>
      simp only []
      split
      · simp [eraseDate]
      · rfl

theorem parse_immich_mem (roots : List Node) (url now : String) (p : Post)
    (h : p ∈ parse_immich roots url now) :
    p.title ≠ "" ∧ p.link ≠ "" ∧ ∃ href, p.link = urljoin url href := by
  unfold parse_immich at h
  obtain ⟨a, _, ha⟩ := List.mem_filterMap.mp h
  exact immichProcess_mem url now a p ha

theorem parse_immich_eraseDate (roots : List Node) (url n1 n2 : String) :
    (parse_immich roots url n1).map eraseDate = (parse_immich roots url n2).map eraseDate := by
  unfold parse_immich
  rw [List.map_filterMap, List.map_filterMap]
  apply List.filterMap_congr
  intro a _
  exact immichProcess_eraseDate url n1 n2 a

theorem ddmTitle_props (a : Node) (t : String) (h : ddmTitle a = some t) :
    t ≠ "" ∧ 5 < t.length := by
  unfold ddmTitle at h
  split at h
  · split at h
    · cases h
      assumption
    · split at h
      · cases h
        assumption
      · cases h
  · split at h
    · cases h
      assumption
    · cases h

theorem ddmLoop_mem (url now : String) :
    ∀ (l : List Node) (seen : List String) (p : Post), p ∈ ddmLoop url now l seen →
      p.title ≠ "" ∧ 5 < p.title.length ∧ p.link ≠ "" ∧ ∃ h, p.link = urljoin url h
  | [], seen, p => by
    intro hmem
    simp [ddmLoop] at hmem
  | a :: rest, seen, p => by
    intro hmem
    rw [ddmLoop] at hmem
    split at hmem
    · exact ddmLoop_mem url now rest seen p hmem
    · next link hattr =>
      split at hmem
      · exact ddmLoop_mem url now rest seen p hmem
      · split at hmem
        · exact ddmLoop_mem url now rest seen p hmem
        · split at hmem
          · exact ddmLoop_mem url now rest _ p hmem
          · next title htitle =>
            split at hmem
            · next hcond =>
              rcases List.mem_cons.mp hmem with hp | hp
              · subst hp
                obtain ⟨ht1, ht2⟩ := ddmTitle_props a title htitle
                exact ⟨ht1, ht2, hcond.2, link, rfl⟩
              · exact ddmLoop_mem url now rest _ p hp
            · exact ddmLoop_mem url now rest _ p hmem

theorem ddmLoop_nodup (url now : String) :
    ∀ (l : List Node) (seen : List String),
      (∀ p ∈ ddmLoop url now l seen, p.link ∉ seen) ∧
      ((ddmLoop url now l seen).map Post.link).Nodup
  | [], seen => by simp [ddmLoop]
  | a :: rest, seen => by
    rw [ddmLoop]
    split
    · exact ddmLoop_nodup url now rest seen
    · next link hattr =>
      split
      · exact ddmLoop_nodup url now rest seen
      · split
        · exact ddmLoop_nodup url now rest seen
        · next hseen =>
          split
          · obtain ⟨h1, h2⟩ := ddmLoop_nodup url now rest (urljoin url link :: seen)
            refine ⟨?_, h2⟩
            intro p hp hin
            exact h1 p hp (List.mem_cons_of_mem _ hin)
          · split
            · obtain ⟨h1, h2⟩ := ddmLoop_nodup url now rest (urljoin url link :: seen)
              constructor
              · intro p hp hin
                rcases List.mem_cons.mp hp with hp' | hp'
                · subst hp'
                  exact hseen hin
                · exact h1 p hp' (List.mem_cons_of_mem _ hin)
              · rw [List.map_cons]
                refine List.Nodup.cons ?_ h2
                intro hmem
                obtain ⟨q, hq, hql⟩ := List.mem_map.mp hmem
                exact h1 q hq (hql ▸ List.mem_cons_self _ _)
            · obtain ⟨h1, h2⟩ := ddmLoop_nodup url now rest (urljoin url link :: seen)
              refine ⟨?_, h2⟩
              intro p hp hin
              exact h1 p hp (List.mem_cons_of_mem _ hin)

theorem ddmLoop_eraseDate (url n1 n2 : String) :
    ∀ (l : List Node) (seen : List String),
      (ddmLoop url n1 l seen).map eraseDate = (ddmLoop url n2 l seen).map eraseDate
  | [], seen => by simp [ddmLoop]
  | a :: rest, seen => by
    rw [ddmLoop, ddmLoop]
    split
    · exact ddmLoop_eraseDate url n1 n2 rest seen
    · next link hattr =>
      split
      · exact ddmLoop_eraseDate url n1 n2 rest seen
      · split
        · exact ddmLoop_eraseDate url n1 n2 rest seen
        · split
          · exact ddmLoop_eraseDate url n1 n2 rest _
          · split
            · rw [List.map_cons, List.map_cons, ddmLoop_eraseDate url n1 n2 rest _]
              congr 1
            · exact ddmLoop_eraseDate url n1 n2 rest _

theorem parse_diariodominho_mem (roots : List Node) (url now : String) (p : Post)
    (h : p ∈ parse_diariodominho roots url now) :
    p.title ≠ "" ∧ 5 < p.title.length ∧ p.link ≠ "" ∧ ∃ href, p.link = urljoin url href :=
  ddmLoop_mem url now _ [] p h

theorem parse_diariodominho_nodup (roots : List Node) (url now : String) :
    ((parse_diariodominho roots url now).map Post.link).Nodup :=
  (ddmLoop_nodup url now _ []).2

theorem parse_diariodominho_eraseDate (roots : List Node) (url n1 n2 : String) :
    (parse_diariodominho roots url n1).map eraseDate =
      (parse_diariodominho roots url n2).map eraseDate :=
  ddmLoop_eraseDate url n1 n2 _ []

theorem metalEntry_title (t l d : String) (s : Node) : (metalEntry t l d s).title = t := by
  unfold metalEntry
  split <;> rfl

theorem metalEntry_link (t l d : String) (s : Node) : (metalEntry t l d s).link = l := by
  unfold metalEntry
  split <;> rfl

theorem metalEntry_eraseDate (t l d1 d2 : String) (s : Node) :
    eraseDate (metalEntry t l d1 s) = eraseDate (metalEntry t l d2 s) := by
  unfold metalEntry
  split <;> simp [eraseDate]

theorem metalLoop_mem (now : String) :
    ∀ (l : List Node) (seen : List String) (p : Post), p ∈ metalLoop now l seen →
      p.title ≠ "" ∧ p.link ≠ ""
  | [], seen, p => by
    intro hmem
    simp [metalLoop] at hmem
  | s :: rest, seen, p => by
    intro hmem
    rw [metalLoop] at hmem
    split at hmem
    · exact metalLoop_mem now rest seen p hmem
    · split at hmem
      · exact metalLoop_mem now rest seen p hmem
      · next le _ =>
        split at hmem
        · exact metalLoop_mem now rest seen p hmem
        · next link hattr =>
          split at hmem
          · exact metalLoop_mem now rest seen p hmem
          · split at hmem
            · next hcond =>
              rcases List.mem_cons.mp hmem with hp | hp
              · subst hp
                rw [metalEntry_title, metalEntry_link]
                exact hcond
              · exact metalLoop_mem now rest _ p hp
            · exact metalLoop_mem now rest _ p hmem

theorem metalLoop_nodup (now : String) :
    ∀ (l : List Node) (seen : List String),
      (∀ p ∈ metalLoop now l seen, p.link ∉ seen) ∧
      ((metalLoop now l seen).map Post.link).Nodup
  | [], seen => by simp [metalLoop]
  | s :: rest, seen => by
    rw [metalLoop]
    split
    · exact metalLoop_nodup now rest seen
    · split
      · exact metalLoop_nodup now rest seen
      · next le _ =>
        split
        · exact metalLoop_nodup now rest seen
        · next link hattr =>
          split
          · exact metalLoop_nodup now rest seen
          · next hseen =>
            split
            · obtain ⟨h1, h2⟩ := metalLoop_nodup now rest (link :: seen)
              constructor
              · intro p hp hin
                rcases List.mem_cons.mp hp with hp' | hp'
                · subst hp'
                  rw [metalEntry_link] at hin
                  exact hseen hin
                · exact h1 p hp' (List.mem_cons_of_mem _ hin)
              · rw [List.map_cons]
                refine List.Nodup.cons ?_ h2
                intro hmem
                obtain ⟨q, hq, hql⟩ := List.mem_map.mp hmem
                rw [metalEntry_link] at hql
                exact h1 q hq (hql ▸ List.mem_cons_self _ _)
            · obtain ⟨h1, h2⟩ := metalLoop_nodup now rest (link :: seen)
              refine ⟨?_, h2⟩
              intro p hp hin
              exact h1 p hp (List.mem_cons_of_mem _ hin)

theorem metalLoop_eraseDate (n1 n2 : String) :
    ∀ (l : List Node) (seen : List String),
      (metalLoop n1 l seen).map eraseDate = (metalLoop n2 l seen).map eraseDate
  | [], seen => by simp [metalLoop]
  | s :: rest, seen => by
    rw [metalLoop, metalLoop]
    split
    · exact metalLoop_eraseDate n1 n2 rest seen
    · split
      · exact metalLoop_eraseDate n1 n2 rest seen
      · next le _ =>
        split
        · exact metalLoop_eraseDate n1 n2 rest seen
        · next link hattr =>
          split
          · exact metalLoop_eraseDate n1 n2 rest seen
          · split
            · rw [List.map_cons, List.map_cons, metalLoop_eraseDate n1 n2 rest _,
                metalEntry_eraseDate _ _ (metalDate n1 s) (metalDate n2 s)]
            · exact metalLoop_eraseDate n1 n2 rest _

theorem parse_newalbumreleases_metal_mem (roots : List Node) (url now : String) (p : Post)
    (h : p ∈ parse_newalbumreleases_metal roots url now) :
    p.title ≠ "" ∧ p.link ≠ "" :=
  metalLoop_mem now _ [] p h

theorem parse_newalbumreleases_metal_nodup (roots : List Node) (url now : String) :
    ((parse_newalbumreleases_metal roots url now).map Post.link).Nodup :=
  (metalLoop_nodup now _ []).2

theorem parse_newalbumreleases_metal_eraseDate (roots : List Node) (url n1 n2 : String) :
    (parse_newalbumreleases_metal roots url n1).map eraseDate =
      (parse_newalbumreleases_metal roots url n2).map eraseDate :=
  metalLoop_eraseDate n1 n2 _ []

/- ------------------------------------------------------------------ -/
/- Concrete fixtures                                                   -/
/- ------------------------------------------------------------------ -/

/-- A blog-post container as `parse_immich` expects (class contains
"post"), whose only date source is the URL-embedded `/2025-10-01-title`
pattern. -/
def exPostDiv : Node :=
  .elem "div" [("class", "post-item")]
    [.elem "h2" [] [.textNode "Hello World"],
     .elem "a" [("href", "/blog/2025-10-01-title")] [.textNode "Read more"]]

/-- The same container with an additional `time[datetime]` element. -/
def exPostDivTime : Node :=
  .elem "div" [("class", "post-item")]
    [.elem "h2" [] [.textNode "Hello World"],
     .elem "time" [("datetime", "2024-01-02T10:00:00")] [],
     .elem "a" [("href", "/blog/2025-10-01-title")] [.textNode "Read more"]]

/-- A post container whose title text carries a date-and-author suffix. -/
def exTitleDiv : Node :=
  .elem "div" [("class", "post-item")]
    [.elem "h2" [] [.textNode "My PostDecember 30, 2023 — Jane Doe"],
     .elem "a" [("href", "/blog/my-post")] [.textNode "Read more"]]

/-- A Diário do Minho news anchor whose URL carries no date. -/
def exDdmAnchor : Node :=
  .elem "a" [("href", "/noticias/cultura/sem-data")]
    [.elem "span" [] [.textNode "Um evento cultural"]]

/-- The record `parse_diariodominho` produces from `exDdmAnchor` at clock
reading `"2026-01-01"`. -/
def exDdmPost : Post :=
  { title := "Um evento cultural",
    link := "https://www.diariodominho.pt/noticias/cultura/sem-data",
    date := "2026-01-01", description := some "Um evento cultural",
    category := some "Cultura" }

/-- A `div.single` release block whose `h2 > a` href is relative. -/
def exMetalRel : Node :=
  .elem "div" [("class", "single")]
    [.elem "h2" [] [.elem "a" [("href", "/album-two/")] [.textNode "Band Two - Album Two (2025)"]]]

/-- A generic article record. -/
def examplePost : Post :=
  { title := "T", link := "https://example.com/a", date := "2024-01-01",
    description := some "D" }

/-- The `immich` entry of `SITES`. -/
def immichSite : SiteConfig :=
  { id := "immich", name := "Immich Blog", url := "https://immich.app/blog",
    output_file := "immich_blog_feed.xml", parserName := "parse_immich",
    language := "en", description := "Latest posts from the Immich blog",
    email := "noreply@immich.app", wait_time := 2000, max_articles := 10 }

/-- A fragment with a comment, a `script` element, and a non-allow-listed
attribute, for the sanitizer witness. -/
def exDirty : List Node :=
  [.elem "div" [("id", "x"), ("href", "y")]
    [.commentNode "c", .elem "script" [] [], .textNode "hi"]]

/- ------------------------------------------------------------------ -/
/- Claim theorems                                                      -/
/- ------------------------------------------------------------------ -/

/-- Claim C1, counterexample: `parse_immich` performs no intra-pass link
deduplication — two containers carrying the same anchor yield two records
with the same normalized absolute link. -/
theorem parse_immich_duplicate_counterexample :
    ¬ ((parse_immich [exPostDiv, exPostDiv] "https://immich.app/blog" "2026-01-01").map
        Post.link).Nodup := by
  decide

/-- Claim C1 (amended): within one parse pass, `parse_diariodominho` and
`parse_newalbumreleases_metal` suppress repeats of the same normalized
link, keeping only the first occurrence, so their outputs contain no two
records with the same link; `parse_immich` performs no such
deduplication. -/
theorem dedup_parsers_links_nodup (roots : List Node) (url now : String) :
    ((parse_diariodominho roots url now).map Post.link).Nodup ∧
    ((parse_newalbumreleases_metal roots url now).map Post.link).Nodup :=
  ⟨parse_diariodominho_nodup roots url now,
   parse_newalbumreleases_metal_nodup roots url now⟩

/-- Claim C2, counterexample: `parse_newalbumreleases_metal` emits the raw
href unresolved — a relative `h2 > a` href yields a record whose link has
no scheme and differs from the base-URL resolution of the href. -/
theorem metal_relative_link_counterexample :
    (parse_newalbumreleases_metal [exMetalRel]
        "https://www.newalbumreleases.cc/category/metal/" "2026-01-01").map Post.link =
      ["/album-two/"] ∧
    (schemeSplit "/album-two/".data).isSome = false ∧
    "/album-two/" ≠ urljoin "https://www.newalbumreleases.cc/category/metal/" "/album-two/" := by
  decide

/-- Claim C2 (amended): every record emitted by any of the three site
parsers has a non-empty title and non-empty link; for `parse_immich` and
`parse_diariodominho` the link is the href resolved against the page's
base URL, while `parse_newalbumreleases_metal` emits the raw href (which
is absolute only when the page's hrefs are). -/
theorem parsers_nonempty_title_link (roots : List Node) (url now : String) :
    (∀ p ∈ parse_immich roots url now,
      p.title ≠ "" ∧ p.link ≠ "" ∧ ∃ href, p.link = urljoin url href) ∧
    (∀ p ∈ parse_diariodominho roots url now,
      p.title ≠ "" ∧ p.link ≠ "" ∧ ∃ href, p.link = urljoin url href) ∧
    (∀ p ∈ parse_newalbumreleases_metal roots url now, p.title ≠ "" ∧ p.link ≠ "") := by
  refine ⟨?_, ?_, ?_⟩
  · intro p hp
    exact parse_immich_mem roots url now p hp
  · intro p hp
    obtain ⟨h1, _, h3, h4⟩ := parse_diariodominho_mem roots url now p hp
    exact ⟨h1, h3, h4⟩
  · intro p hp
    exact parse_newalbumreleases_metal_mem roots url now p hp

/-- Witness for C2 at a concrete Diário do Minho record. -/
theorem parsers_nonempty_title_link_witness :
    exDdmPost.title ≠ "" ∧ exDdmPost.link ≠ "" := by
  have h := (parsers_nonempty_title_link [exDdmAnchor] "https://www.diariodominho.pt/"
    "2026-01-01").2.1 exDdmPost (by decide)
  exact ⟨h.1, h.2.1⟩

/-- Claim C3, counterexample: `generate_rss_feed` applies no
`max_articles` cap — eleven articles produce eleven entries although the
immich site config caps at ten. -/
theorem feed_cap_counterexample :
    get_site_config "immich" = some immichSite ∧
    immichSite.max_articles = 10 ∧
    (generate_rss_feed (List.replicate 11 examplePost) immichSite).entries.length = 11 := by
  decide

/-- Claim C3 (amended): the feed produced by `generate_rss_feed` contains
exactly one entry per input article, in parser emission order (not
re-sorted); the `max_articles` cap is not applied by `generate_rss_feed` —
bounding the list is its caller's responsibility. -/
theorem generate_rss_feed_order_no_cap (articles : List Post) (cfg : SiteConfig) :
    (generate_rss_feed articles cfg).entries = articles.map entryOfArticle ∧
    (generate_rss_feed articles cfg).entries.length = articles.length ∧
    (generate_rss_feed articles cfg).entries.map FeedEntry.link = articles.map Post.link := by
  refine ⟨rfl, by simp [generate_rss_feed], ?_⟩
  simp only [generate_rss_feed, List.map_map]
  rfl

/-- Claim C4, counterexample: parsers are not functions of html and base
URL alone — `parse_diariodominho` on the same inputs at two clock readings
returns different record lists (the date-fallback substitutes the current
date). -/
theorem parser_clock_counterexample :
    parse_diariodominho [exDdmAnchor] "https://www.diariodominho.pt/" "2025-01-01" ≠
      parse_diariodominho [exDdmAnchor] "https://www.diariodominho.pt/" "2025-01-02" := by
  decide

/-- Claim C4 (amended): each site parser is a pure function of the HTML,
the base URL and the current date; two invocations at different times
agree on everything except possibly the `date` field (which falls back to
the clock when no date is found). -/
theorem parsers_pure_up_to_clock_date (roots : List Node) (url now₁ now₂ : String) :
    (parse_immich roots url now₁).map eraseDate =
      (parse_immich roots url now₂).map eraseDate ∧
    (parse_diariodominho roots url now₁).map eraseDate =
      (parse_diariodominho roots url now₂).map eraseDate ∧
    (parse_newalbumreleases_metal roots url now₁).map eraseDate =
      (parse_newalbumreleases_metal roots url now₂).map eraseDate :=
  ⟨parse_immich_eraseDate roots url now₁ now₂,
   parse_diariodominho_eraseDate roots url now₁ now₂,
   parse_newalbumreleases_metal_eraseDate roots url now₁ now₂⟩

/-- Claim C5: on a parse failure `clean_html_content` returns its input
unmodified, and on success the cleaned DOM contains no comment node, no
`script` or `style` element, and no attribute outside
{href, src, alt, title, class} (the serializer entity-escapes text and
attribute values, so such markup can reach the output string only through
actual element or comment nodes). -/
theorem clean_html_content_spec :
    (∀ html, clean_html_content html none = html) ∧
    (∀ (ns : List Node), ∀ x ∈ forestNodes (cleanForest ns),
      (∀ s, x ≠ .commentNode s) ∧
      (∀ t a c, x = .elem t a c →
        t ≠ "script" ∧ t ≠ "style" ∧ ∀ q ∈ a, q.1 ∈ allowedAttrs)) := by
  constructor
  · intro html
    rfl
  · intro ns x hx
    obtain ⟨hss, hnc, hattrs⟩ := cleanForest_good ns x hx
    refine ⟨hnc, ?_⟩
    intro t a c he
    obtain ⟨h1, h2⟩ := hss t a c he
    exact ⟨h1, h2, hattrs t a c he⟩

/-- Witness for C5 at a concrete dirty fragment. -/
theorem clean_html_content_spec_witness :
    Node.elem "div" [("href", "y")] [Node.textNode "hi"] ≠ Node.commentNode "c" :=
  (clean_html_content_spec.2 exDirty _ (by decide)).1 "c"

/-- Claim C6: `parse_immich`'s date fallback chain — a container whose only
date source is the URL-embedded `/2025-10-01-title` pattern gets date
`"2025-10-01"`, and a container that also has a `time[datetime]` element
gets the `time` element's datetime value. -/
theorem immich_date_fallback_chain :
    (parse_immich [exPostDiv] "https://immich.app/blog" "2026-01-01").map Post.date =
      ["2025-10-01"] ∧
    (parse_immich [exPostDivTime] "https://immich.app/blog" "2026-01-01").map Post.date =
      ["2024-01-02T10:00:00"] := by
  decide

/-- Claim C7: the published timestamp comes from the fixed format chain
`%Y-%m-%d`, `%Y-%m-%dT%H:%M:%S`, `%B %d, %Y`, `%b %d, %Y` — the date
string `"March 5, 2024"` yields a published timestamp equal to 2024-03-05
and `"not-a-date"` yields an entry with no published timestamp (and no
error, the chain being total). -/
theorem feed_published_formats :
    (generate_rss_feed [{ examplePost with date := "March 5, 2024" }] immichSite).entries.map
        FeedEntry.published = [some ⟨2024, 3, 5, 0, 0, 0⟩] ∧
    (generate_rss_feed [{ examplePost with date := "not-a-date" }] immichSite).entries.map
        FeedEntry.published = [none] := by
  decide

/-- Claim C8: the title cleanup of `parse_immich` turns
`"My PostDecember 30, 2023 — Jane Doe"` into `"My Post"`, both as the
cleanup function and through a full parse of a container carrying that
title text. -/
theorem immich_title_cleanup :
    immichCleanTitle "My PostDecember 30, 2023 — Jane Doe" = "My Post" ∧
    (parse_immich [exTitleDiv] "https://immich.app/blog" "2026-01-01").map Post.title =
      ["My Post"] := by
  decide

/-- Claim C10: `parse_diariodominho` drops every candidate whose extracted
title has length at most 5, so every emitted record's title is strictly
longer than 5 characters. -/
theorem ddm_title_longer_than_five (roots : List Node) (url now : String) :
    ∀ p ∈ parse_diariodominho roots url now, 5 < p.title.length := by
  intro p hp
  exact (parse_diariodominho_mem roots url now p hp).2.1

/-- Witness for C10 at a concrete Diário do Minho record. -/
theorem ddm_title_longer_than_five_witness : 5 < exDdmPost.title.length :=
  ddm_title_longer_than_five [exDdmAnchor] "https://www.diariodominho.pt/" "2026-01-01"
    exDdmPost (by decide)

end RssGen
